import Mathlib

/-!
# AutoBuf — verification of the core codec against its specification

Shallow embedding of the AutoBuf protocol-codec generator (`src/index.ts`,
`src/utils.ts`, `src/Types.ts`).  Buffers are byte lists (`List Nat`, each
entry `< 256`); JavaScript numbers are modelled as `Nat`/`Int` with the
floating-point truncations of the source spelled out at each use site;
fallible operations return `Except String`.
-/

namespace AutoBuf

/-- A NodeJS `Buffer` is modelled as its list of bytes. -/
abbrev Bytes := List Nat

/-! ## Varint codec

`encodeVarint` (src/index.ts lines 25–53): two loops emit 7-bit groups
little-endian with the 0x80 continuation bit.  In JS `num` becomes a
nonnegative dyadic rational after `num /= 128`, but every use of `num`
truncates it first (`num & 0xff`, `num >>>= 7`, `num | 0`, and the guard
`num >= INT` agrees with its floor because `2^31` is an integer), so the
embedding tracks `floor(num)` as a `Nat`. -/

/-- Second loop of `encodeVarint`: `while (num & MSBALL)`.  For the int32
`num` (below `2^31` after loop 1), `num & ~0x7f` clears the low 7 bits,
i.e. equals `128 * (num / 128)`; the loop body is
`out[offset++] = (num & 0xff) | MSB; num >>>= 7`, and afterwards
`out[offset] = num | 0` stores the remaining value. -/
def encodeLoop2 (m : Nat) : List Nat :=
  if 128 * (m / 128) ≠ 0 then
    (m % 256 ||| 128) :: encodeLoop2 (m / 128)
  else [m]
decreasing_by
  exact Nat.div_lt_self (by omega) (by omega)

/-- First loop of `encodeVarint`: `while (num >= INT)` with `INT = 2^31`;
body `out[offset++] = (num & 0xff) | MSB; num /= 128`. -/
def encodeLoop1 (m : Nat) : List Nat :=
  if 2 ^ 31 ≤ m then
    (m % 256 ||| 128) :: encodeLoop1 (m / 128)
  else encodeLoop2 m
decreasing_by
  exact Nat.div_lt_self (by omega) (by omega)

/-- `encodeVarint` (src/index.ts lines 25–53): guards
`num > Number.MAX_SAFE_INTEGER` (`2^53 - 1`) with a `RangeError`, then runs
the two emission loops. -/
def encodeVarint (num : Nat) : Except String Bytes :=
  if 9007199254740991 < num then .error "Could not encode varint"
  else .ok (encodeLoop1 num)

/-- Little-endian base-128 digits with a continuation bit on every digit but
the last: the canonical shape produced by `encodeVarint`'s two loops
(proved below in `encodeLoop1_eq`). -/
def varintBytes (n : Nat) : Bytes :=
  if n < 128 then [n] else (n % 128 + 128) :: varintBytes (n / 128)
decreasing_by
  exact Nat.div_lt_self (by omega) (by omega)

/-- `buf[i]` on a NodeJS `Buffer`: `undefined` when out of range. -/
def byteAt (buf : Bytes) (i : Nat) : Option Nat := buf[i]?

/-- JS `b & 0x7f`; `undefined & 0x7f` evaluates to `0`. -/
def low7 : Option Nat → Nat
  | none => 0
  | some b => b &&& 127

/-- JS `b < MSB` (`MSB = 0x80`); false for `undefined` (NaN comparison). -/
def isLastByte : Option Nat → Bool
  | none => false
  | some b => decide (b < 128)

/-- `decodeVarint` (src/utils.ts lines 85–146): eight unrolled steps, each
adding `(b & 0x7f) * 2^(7k)` and stopping at the first byte below `0x80`;
a ninth continuation byte raises a `RangeError`.  The JS `<< shift` /
`* Math.pow(2, shift)` accumulations are exact for results below `2^53`,
which is the model's domain of fidelity. -/
def decodeVarint (buf : Bytes) (offset : Nat) : Except String (Nat × Nat) :=
  let b0 := byteAt buf offset
  let r0 := low7 b0
  if isLastByte b0 then .ok (r0, 1) else
  let b1 := byteAt buf (offset + 1)
  let r1 := r0 + low7 b1 * 128
  if isLastByte b1 then .ok (r1, 2) else
  let b2 := byteAt buf (offset + 2)
  let r2 := r1 + low7 b2 * 16384
  if isLastByte b2 then .ok (r2, 3) else
  let b3 := byteAt buf (offset + 3)
  let r3 := r2 + low7 b3 * 2097152
  if isLastByte b3 then .ok (r3, 4) else
  let b4 := byteAt buf (offset + 4)
  let r4 := r3 + low7 b4 * 268435456
  if isLastByte b4 then .ok (r4, 5) else
  let b5 := byteAt buf (offset + 5)
  let r5 := r4 + low7 b5 * 34359738368
  if isLastByte b5 then .ok (r5, 6) else
  let b6 := byteAt buf (offset + 6)
  let r6 := r5 + low7 b6 * 4398046511104
  if isLastByte b6 then .ok (r6, 7) else
  let b7 := byteAt buf (offset + 7)
  let r7 := r6 + low7 b7 * 562949953421312
  if isLastByte b7 then .ok (r7, 8) else
  .error "Could not decode varint"

set_option maxRecDepth 4096 in
lemma or128_eq : ∀ x < 256, x ||| 128 = x % 128 + 128 := by decide

set_option maxRecDepth 4096 in
lemma and127_eq : ∀ x < 256, x &&& 127 = x % 128 := by decide

lemma varintBytes_small {n : Nat} (h : n < 128) : varintBytes n = [n] := by
  rw [varintBytes, if_pos h]

lemma varintBytes_large {n : Nat} (h : 128 ≤ n) :
    varintBytes n = (n % 128 + 128) :: varintBytes (n / 128) := by
  rw [varintBytes, if_neg (by omega)]

lemma encodeLoop2_eq (m : Nat) : encodeLoop2 m = varintBytes m := by
  induction m using Nat.strong_induction_on with
  | _ m ih =>
    rw [encodeLoop2]
    by_cases h : 128 ≤ m
    · rw [if_pos (by omega), varintBytes_large h,
        ih (m / 128) (Nat.div_lt_self (by omega) (by omega)),
        or128_eq (m % 256) (by omega)]
      congr 1
      omega
    · rw [if_neg (by omega), varintBytes_small (by omega)]

lemma encodeLoop1_eq (m : Nat) : encodeLoop1 m = varintBytes m := by
  induction m using Nat.strong_induction_on with
  | _ m ih =>
    rw [encodeLoop1]
    by_cases h : 2 ^ 31 ≤ m
    · rw [if_pos h, varintBytes_large (by omega),
        ih (m / 128) (Nat.div_lt_self (by omega) (by omega)),
        or128_eq (m % 256) (by omega)]
      congr 1
      omega
    · rw [if_neg h, encodeLoop2_eq]

lemma encodeVarint_ok {n : Nat} (h : n < 9007199254740992) :
    encodeVarint n = .ok (varintBytes n) := by
  rw [encodeVarint, if_neg (by omega), encodeLoop1_eq]

/-- Decoding the canonical digit string of `n` returns `n` and consumes the
whole digit string.  Fidelity domain: `n < 2^53` (JS safe integers). -/
lemma decodeVarint_varintBytes {n : Nat} (h : n < 9007199254740992) :
    decodeVarint (varintBytes n) 0 = .ok (n, (varintBytes n).length) := by
  by_cases c1 : n < 128
  · rw [varintBytes_small c1]
    simp only [decodeVarint, byteAt, low7, isLastByte, zero_add, Nat.reduceAdd,
      List.getElem?_cons_zero, List.getElem?_cons_succ, List.getElem?_nil,
      List.length_cons, List.length_nil, decide_eq_true_eq]
    rw [and127_eq n (by omega), if_pos (show n < 128 from c1)]
    refine congrArg Except.ok ?_
    refine Prod.ext ?_ rfl
    show n % 128 = n
    omega
  by_cases c2 : n < 16384
  · rw [varintBytes_large (by omega), varintBytes_small (show n / 128 < 128 by omega)]
    simp only [decodeVarint, byteAt, low7, isLastByte, zero_add, Nat.reduceAdd,
      List.getElem?_cons_zero, List.getElem?_cons_succ, List.getElem?_nil,
      List.length_cons, List.length_nil, decide_eq_true_eq]
    rw [and127_eq (n % 128 + 128) (by omega), and127_eq (n / 128) (by omega)]
    rw [if_neg (show ¬(n % 128 + 128 < 128) by omega),
      if_pos (show n / 128 < 128 by omega)]
    refine congrArg Except.ok ?_
    refine Prod.ext ?_ rfl
    show (n % 128 + 128) % 128 + n / 128 % 128 * 128 = n
    omega
  by_cases c3 : n < 2097152
  · rw [varintBytes_large (by omega), varintBytes_large (show 128 ≤ n / 128 by omega),
      varintBytes_small (show n / 128 / 128 < 128 by omega)]
    simp only [decodeVarint, byteAt, low7, isLastByte, zero_add, Nat.reduceAdd,
      List.getElem?_cons_zero, List.getElem?_cons_succ, List.getElem?_nil,
      List.length_cons, List.length_nil, decide_eq_true_eq]
    rw [and127_eq (n % 128 + 128) (by omega), and127_eq (n / 128 % 128 + 128) (by omega),
      and127_eq (n / 128 / 128) (by omega)]
    rw [if_neg (show ¬(n % 128 + 128 < 128) by omega),
      if_neg (show ¬(n / 128 % 128 + 128 < 128) by omega),
      if_pos (show n / 128 / 128 < 128 by omega)]
    refine congrArg Except.ok ?_
    refine Prod.ext ?_ rfl
    show (n % 128 + 128) % 128 + (n / 128 % 128 + 128) % 128 * 128 +
      n / 128 / 128 % 128 * 16384 = n
    omega
  by_cases c4 : n < 268435456
  · rw [varintBytes_large (by omega), varintBytes_large (show 128 ≤ n / 128 by omega),
      varintBytes_large (show 128 ≤ n / 128 / 128 by omega),
      varintBytes_small (show n / 128 / 128 / 128 < 128 by omega)]
    simp only [decodeVarint, byteAt, low7, isLastByte, zero_add, Nat.reduceAdd,
      List.getElem?_cons_zero, List.getElem?_cons_succ, List.getElem?_nil,
      List.length_cons, List.length_nil, decide_eq_true_eq]
    rw [and127_eq (n % 128 + 128) (by omega), and127_eq (n / 128 % 128 + 128) (by omega),
      and127_eq (n / 128 / 128 % 128 + 128) (by omega),
      and127_eq (n / 128 / 128 / 128) (by omega)]
    rw [if_neg (show ¬(n % 128 + 128 < 128) by omega),
      if_neg (show ¬(n / 128 % 128 + 128 < 128) by omega),
      if_neg (show ¬(n / 128 / 128 % 128 + 128 < 128) by omega),
      if_pos (show n / 128 / 128 / 128 < 128 by omega)]
    refine congrArg Except.ok ?_
    refine Prod.ext ?_ rfl
    show (n % 128 + 128) % 128 + (n / 128 % 128 + 128) % 128 * 128 +
      (n / 128 / 128 % 128 + 128) % 128 * 16384 +
      n / 128 / 128 / 128 % 128 * 2097152 = n
    omega
  by_cases c5 : n < 34359738368
  · rw [varintBytes_large (by omega), varintBytes_large (show 128 ≤ n / 128 by omega),
      varintBytes_large (show 128 ≤ n / 128 / 128 by omega),
      varintBytes_large (show 128 ≤ n / 128 / 128 / 128 by omega),
      varintBytes_small (show n / 128 / 128 / 128 / 128 < 128 by omega)]
    simp only [decodeVarint, byteAt, low7, isLastByte, zero_add, Nat.reduceAdd,
      List.getElem?_cons_zero, List.getElem?_cons_succ, List.getElem?_nil,
      List.length_cons, List.length_nil, decide_eq_true_eq]
    rw [and127_eq (n % 128 + 128) (by omega), and127_eq (n / 128 % 128 + 128) (by omega),
      and127_eq (n / 128 / 128 % 128 + 128) (by omega),
      and127_eq (n / 128 / 128 / 128 % 128 + 128) (by omega),
      and127_eq (n / 128 / 128 / 128 / 128) (by omega)]
    rw [if_neg (show ¬(n % 128 + 128 < 128) by omega),
      if_neg (show ¬(n / 128 % 128 + 128 < 128) by omega),
      if_neg (show ¬(n / 128 / 128 % 128 + 128 < 128) by omega),
      if_neg (show ¬(n / 128 / 128 / 128 % 128 + 128 < 128) by omega),
      if_pos (show n / 128 / 128 / 128 / 128 < 128 by omega)]
    refine congrArg Except.ok ?_
    refine Prod.ext ?_ rfl
    show (n % 128 + 128) % 128 + (n / 128 % 128 + 128) % 128 * 128 +
      (n / 128 / 128 % 128 + 128) % 128 * 16384 +
      (n / 128 / 128 / 128 % 128 + 128) % 128 * 2097152 +
      n / 128 / 128 / 128 / 128 % 128 * 268435456 = n
    omega
  by_cases c6 : n < 4398046511104
  · rw [varintBytes_large (by omega), varintBytes_large (show 128 ≤ n / 128 by omega),
      varintBytes_large (show 128 ≤ n / 128 / 128 by omega),
      varintBytes_large (show 128 ≤ n / 128 / 128 / 128 by omega),
      varintBytes_large (show 128 ≤ n / 128 / 128 / 128 / 128 by omega),
      varintBytes_small (show n / 128 / 128 / 128 / 128 / 128 < 128 by omega)]
    simp only [decodeVarint, byteAt, low7, isLastByte, zero_add, Nat.reduceAdd,
      List.getElem?_cons_zero, List.getElem?_cons_succ, List.getElem?_nil,
      List.length_cons, List.length_nil, decide_eq_true_eq]
    rw [and127_eq (n % 128 + 128) (by omega), and127_eq (n / 128 % 128 + 128) (by omega),
      and127_eq (n / 128 / 128 % 128 + 128) (by omega),
      and127_eq (n / 128 / 128 / 128 % 128 + 128) (by omega),
      and127_eq (n / 128 / 128 / 128 / 128 % 128 + 128) (by omega),
      and127_eq (n / 128 / 128 / 128 / 128 / 128) (by omega)]
    rw [if_neg (show ¬(n % 128 + 128 < 128) by omega),
      if_neg (show ¬(n / 128 % 128 + 128 < 128) by omega),
      if_neg (show ¬(n / 128 / 128 % 128 + 128 < 128) by omega),
      if_neg (show ¬(n / 128 / 128 / 128 % 128 + 128 < 128) by omega),
      if_neg (show ¬(n / 128 / 128 / 128 / 128 % 128 + 128 < 128) by omega),
      if_pos (show n / 128 / 128 / 128 / 128 / 128 < 128 by omega)]
    refine congrArg Except.ok ?_
    refine Prod.ext ?_ rfl
    show (n % 128 + 128) % 128 + (n / 128 % 128 + 128) % 128 * 128 +
      (n / 128 / 128 % 128 + 128) % 128 * 16384 +
      (n / 128 / 128 / 128 % 128 + 128) % 128 * 2097152 +
      (n / 128 / 128 / 128 / 128 % 128 + 128) % 128 * 268435456 +
      n / 128 / 128 / 128 / 128 / 128 % 128 * 34359738368 = n
    omega
  by_cases c7 : n < 562949953421312
  · rw [varintBytes_large (by omega), varintBytes_large (show 128 ≤ n / 128 by omega),
      varintBytes_large (show 128 ≤ n / 128 / 128 by omega),
      varintBytes_large (show 128 ≤ n / 128 / 128 / 128 by omega),
      varintBytes_large (show 128 ≤ n / 128 / 128 / 128 / 128 by omega),
      varintBytes_large (show 128 ≤ n / 128 / 128 / 128 / 128 / 128 by omega),
      varintBytes_small (show n / 128 / 128 / 128 / 128 / 128 / 128 < 128 by omega)]
    simp only [decodeVarint, byteAt, low7, isLastByte, zero_add, Nat.reduceAdd,
      List.getElem?_cons_zero, List.getElem?_cons_succ, List.getElem?_nil,
      List.length_cons, List.length_nil, decide_eq_true_eq]
    rw [and127_eq (n % 128 + 128) (by omega), and127_eq (n / 128 % 128 + 128) (by omega),
      and127_eq (n / 128 / 128 % 128 + 128) (by omega),
      and127_eq (n / 128 / 128 / 128 % 128 + 128) (by omega),
      and127_eq (n / 128 / 128 / 128 / 128 % 128 + 128) (by omega),
      and127_eq (n / 128 / 128 / 128 / 128 / 128 % 128 + 128) (by omega),
      and127_eq (n / 128 / 128 / 128 / 128 / 128 / 128) (by omega)]
    rw [if_neg (show ¬(n % 128 + 128 < 128) by omega),
      if_neg (show ¬(n / 128 % 128 + 128 < 128) by omega),
      if_neg (show ¬(n / 128 / 128 % 128 + 128 < 128) by omega),
      if_neg (show ¬(n / 128 / 128 / 128 % 128 + 128 < 128) by omega),
      if_neg (show ¬(n / 128 / 128 / 128 / 128 % 128 + 128 < 128) by omega),
      if_neg (show ¬(n / 128 / 128 / 128 / 128 / 128 % 128 + 128 < 128) by omega),
      if_pos (show n / 128 / 128 / 128 / 128 / 128 / 128 < 128 by omega)]
    refine congrArg Except.ok ?_
    refine Prod.ext ?_ rfl
    show (n % 128 + 128) % 128 + (n / 128 % 128 + 128) % 128 * 128 +
      (n / 128 / 128 % 128 + 128) % 128 * 16384 +
      (n / 128 / 128 / 128 % 128 + 128) % 128 * 2097152 +
      (n / 128 / 128 / 128 / 128 % 128 + 128) % 128 * 268435456 +
      (n / 128 / 128 / 128 / 128 / 128 % 128 + 128) % 128 * 34359738368 +
      n / 128 / 128 / 128 / 128 / 128 / 128 % 128 * 4398046511104 = n
    omega
  · rw [varintBytes_large (by omega), varintBytes_large (show 128 ≤ n / 128 by omega),
      varintBytes_large (show 128 ≤ n / 128 / 128 by omega),
      varintBytes_large (show 128 ≤ n / 128 / 128 / 128 by omega),
      varintBytes_large (show 128 ≤ n / 128 / 128 / 128 / 128 by omega),
      varintBytes_large (show 128 ≤ n / 128 / 128 / 128 / 128 / 128 by omega),
      varintBytes_large (show 128 ≤ n / 128 / 128 / 128 / 128 / 128 / 128 by omega),
      varintBytes_small (show n / 128 / 128 / 128 / 128 / 128 / 128 / 128 < 128 by omega)]
    simp only [decodeVarint, byteAt, low7, isLastByte, zero_add, Nat.reduceAdd,
      List.getElem?_cons_zero, List.getElem?_cons_succ, List.getElem?_nil,
      List.length_cons, List.length_nil, decide_eq_true_eq]
    rw [and127_eq (n % 128 + 128) (by omega), and127_eq (n / 128 % 128 + 128) (by omega),
      and127_eq (n / 128 / 128 % 128 + 128) (by omega),
      and127_eq (n / 128 / 128 / 128 % 128 + 128) (by omega),
      and127_eq (n / 128 / 128 / 128 / 128 % 128 + 128) (by omega),
      and127_eq (n / 128 / 128 / 128 / 128 / 128 % 128 + 128) (by omega),
      and127_eq (n / 128 / 128 / 128 / 128 / 128 / 128 % 128 + 128) (by omega),
      and127_eq (n / 128 / 128 / 128 / 128 / 128 / 128 / 128) (by omega)]
    rw [if_neg (show ¬(n % 128 + 128 < 128) by omega),
      if_neg (show ¬(n / 128 % 128 + 128 < 128) by omega),
      if_neg (show ¬(n / 128 / 128 % 128 + 128 < 128) by omega),
      if_neg (show ¬(n / 128 / 128 / 128 % 128 + 128 < 128) by omega),
      if_neg (show ¬(n / 128 / 128 / 128 / 128 % 128 + 128 < 128) by omega),
      if_neg (show ¬(n / 128 / 128 / 128 / 128 / 128 % 128 + 128 < 128) by omega),
      if_neg (show ¬(n / 128 / 128 / 128 / 128 / 128 / 128 % 128 + 128 < 128) by omega),
      if_pos (show n / 128 / 128 / 128 / 128 / 128 / 128 / 128 < 128 by omega)]
    refine congrArg Except.ok ?_
    refine Prod.ext ?_ rfl
    show (n % 128 + 128) % 128 + (n / 128 % 128 + 128) % 128 * 128 +
      (n / 128 / 128 % 128 + 128) % 128 * 16384 +
      (n / 128 / 128 / 128 % 128 + 128) % 128 * 2097152 +
      (n / 128 / 128 / 128 / 128 % 128 + 128) % 128 * 268435456 +
      (n / 128 / 128 / 128 / 128 / 128 % 128 + 128) % 128 * 34359738368 +
      (n / 128 / 128 / 128 / 128 / 128 / 128 % 128 + 128) % 128 * 4398046511104 +
      n / 128 / 128 / 128 / 128 / 128 / 128 / 128 % 128 * 562949953421312 = n
    omega

/-- Claim C1: for every integer `0 ≤ n < 2^53`, decoding the byte sequence
produced by `encodeVarint n` yields `n` back (consuming the whole
encoding), and encoding an integer greater than `2^53 - 1` fails fast with
a range error. -/
theorem varint_roundtrip_and_range (n : Nat) :
    (n < 9007199254740992 →
      encodeVarint n = .ok (varintBytes n) ∧
      decodeVarint (varintBytes n) 0 = .ok (n, (varintBytes n).length)) ∧
    (9007199254740991 < n → encodeVarint n = .error "Could not encode varint") := by
  constructor
  · intro h
    exact ⟨encodeVarint_ok h, decodeVarint_varintBytes h⟩
  · intro h
    rw [encodeVarint, if_pos h]

/-- Witness for C1 at `n = 300` and, for the failure half, at `n = 2^53`. -/
theorem varint_roundtrip_and_range_witness :
    (encodeVarint 300 = .ok (varintBytes 300) ∧
      decodeVarint (varintBytes 300) 0 = .ok (300, (varintBytes 300).length)) ∧
    encodeVarint 9007199254740992 = .error "Could not encode varint" :=
  ⟨(varint_roundtrip_and_range 300).1 (by decide),
    (varint_roundtrip_and_range 9007199254740992).2 (by decide)⟩

/-! ## Short (16-bit) codec -/

/-- Node's `ERR_OUT_OF_RANGE` message for bounds-checked reads. -/
def outOfBoundsMsg : String := "Attempt to access memory outside buffer bounds"

/-- `BufWrapper.writeShort` (src/index.ts lines 419–423):
`Buffer.writeUInt16BE` bounds-checks `0 ≤ value ≤ 65535` (throwing a
`RangeError` otherwise) and stores the value big-endian. -/
def writeShort (value : Int) : Except String Bytes :=
  if value < 0 ∨ 65535 < value then
    .error "The value of \"value\" is out of range"
  else .ok [value.toNat / 256, value.toNat % 256]

/-- `BufWrapper.readShort` (src/index.ts lines 436–440):
`Buffer.readInt16BE` bounds-checks the offset and reads a big-endian
*signed* 16-bit value; the new cursor offset is returned alongside. -/
def readShort (buf : Bytes) (offset : Nat) : Except String (Int × Nat) :=
  if buf.length < offset + 2 then .error outOfBoundsMsg
  else
    let u : Nat := (byteAt buf offset).getD 0 * 256 + (byteAt buf (offset + 1)).getD 0
    let v : Int := if u < 32768 then (u : Int) else (u : Int) - 65536
    .ok (v, offset + 2)

/-- Claim C10: the short codec writes unsigned big-endian but reads back
signed: values below `2^15` round-trip unchanged, values in
`[2^15, 2^16)` read back as `n - 2^16`, and writing a negative value
fails. -/
theorem short_write_unsigned_read_signed (n : Int) :
    (0 ≤ n → n < 32768 →
      writeShort n = .ok [n.toNat / 256, n.toNat % 256] ∧
      readShort [n.toNat / 256, n.toNat % 256] 0 = .ok (n, 2)) ∧
    (32768 ≤ n → n < 65536 →
      writeShort n = .ok [n.toNat / 256, n.toNat % 256] ∧
      readShort [n.toNat / 256, n.toNat % 256] 0 = .ok (n - 65536, 2)) ∧
    (n < 0 → writeShort n = .error "The value of \"value\" is out of range") := by
  refine ⟨fun h0 h1 => ⟨?_, ?_⟩, fun h0 h1 => ⟨?_, ?_⟩, fun h0 => ?_⟩
  · rw [writeShort, if_neg (by omega)]
  · simp only [readShort, byteAt, List.getElem?_cons_zero, List.getElem?_cons_succ,
      zero_add, Nat.reduceAdd, List.length_cons, List.length_nil, Option.getD_some]
    rw [if_neg (by omega), if_pos (show n.toNat / 256 * 256 + n.toNat % 256 < 32768 by omega)]
    refine congrArg Except.ok ?_
    refine Prod.ext ?_ rfl
    show ((n.toNat / 256 * 256 + n.toNat % 256 : Nat) : Int) = n
    omega
  · rw [writeShort, if_neg (by omega)]
  · simp only [readShort, byteAt, List.getElem?_cons_zero, List.getElem?_cons_succ,
      zero_add, Nat.reduceAdd, List.length_cons, List.length_nil, Option.getD_some]
    rw [if_neg (by omega), if_neg (show ¬(n.toNat / 256 * 256 + n.toNat % 256 < 32768) by omega)]
    refine congrArg Except.ok ?_
    refine Prod.ext ?_ rfl
    show ((n.toNat / 256 * 256 + n.toNat % 256 : Nat) : Int) - 65536 = n - 65536
    omega
  · rw [writeShort, if_pos (Or.inl h0)]

/-- Witness for C10 at `n = 5`, `n = 40000` and `n = -1`. -/
theorem short_write_unsigned_read_signed_witness :
    (writeShort 5 = .ok [(5 : Int).toNat / 256, (5 : Int).toNat % 256] ∧
      readShort [(5 : Int).toNat / 256, (5 : Int).toNat % 256] 0 = .ok (5, 2)) ∧
    (writeShort 40000 = .ok [(40000 : Int).toNat / 256, (40000 : Int).toNat % 256] ∧
      readShort [(40000 : Int).toNat / 256, (40000 : Int).toNat % 256] 0 =
        .ok (40000 - 65536, 2)) ∧
    writeShort (-1) = .error "The value of \"value\" is out of range" :=
  ⟨(short_write_unsigned_read_signed 5).1 (by decide) (by decide),
    (short_write_unsigned_read_signed 40000).2.1 (by decide) (by decide),
    (short_write_unsigned_read_signed (-1)).2.2 (by decide)⟩

/-! ## Strings

JS strings are modelled as their lists of Unicode code points (`List Nat`).
`value.length` is the UTF-16 code-unit count; `Buffer.from(value)` yields
the UTF-8 bytes; `buffer.toString('utf8', start, end)` decodes the clamped
byte range with U+FFFD replacement for malformed input (WHATWG "maximal
subpart" policy, which Node's decoder follows). -/

/-- UTF-16 code-unit count of a code-point list (astral code points count
as 2). -/
def utf16LengthCp (s : List Nat) : Nat :=
  (s.map (fun c => if c < 0x10000 then 1 else 2)).sum

/-- JS `string.length`: UTF-16 code units. -/
def utf16Length (s : String) : Nat := utf16LengthCp (s.data.map Char.toNat)

/-- UTF-8 bytes of one code point (`Buffer.from(value, 'utf8')`). -/
def utf8EncodeChar (c : Nat) : List Nat :=
  if c < 0x80 then [c]
  else if c < 0x800 then [0xC0 + c / 64, 0x80 + c % 64]
  else if c < 0x10000 then [0xE0 + c / 4096, 0x80 + c / 64 % 64, 0x80 + c % 64]
  else [0xF0 + c / 262144, 0x80 + c / 4096 % 64, 0x80 + c / 64 % 64, 0x80 + c % 64]

/-- UTF-8 bytes of a string. -/
def utf8Encode (s : String) : Bytes := (s.data.map (fun c => utf8EncodeChar c.toNat)).flatten

/-- Worker for `utf8DecodeLossy`.  Every step consumes at least one byte
and recurses on a strict suffix, so `fuel := length of the input` makes the
fuel-out arm unreachable; the fuel only makes the recursion structural. -/
def utf8DecodeGo : Nat → List Nat → List Nat
  | 0, _ => []
  | _, [] => []
  | f + 1, b :: rest =>
    if b < 0x80 then b :: utf8DecodeGo f rest
    else if b < 0xC2 then 0xFFFD :: utf8DecodeGo f rest
    else if b < 0xE0 then
      match rest with
      | [] => [0xFFFD]
      | b1 :: r1 =>
        if 0x80 ≤ b1 ∧ b1 < 0xC0 then
          ((b - 0xC0) * 64 + (b1 - 0x80)) :: utf8DecodeGo f r1
        else 0xFFFD :: utf8DecodeGo f (b1 :: r1)
    else if b < 0xF0 then
      match rest with
      | [] => [0xFFFD]
      | b1 :: r1 =>
        if (if b = 0xE0 then 0xA0 ≤ b1 ∧ b1 < 0xC0
            else if b = 0xED then 0x80 ≤ b1 ∧ b1 < 0xA0
            else 0x80 ≤ b1 ∧ b1 < 0xC0) then
          match r1 with
          | [] => [0xFFFD]
          | b2 :: r2 =>
            if 0x80 ≤ b2 ∧ b2 < 0xC0 then
              ((b - 0xE0) * 4096 + (b1 - 0x80) * 64 + (b2 - 0x80)) :: utf8DecodeGo f r2
            else 0xFFFD :: utf8DecodeGo f (b2 :: r2)
        else 0xFFFD :: utf8DecodeGo f (b1 :: r1)
    else if b < 0xF5 then
      match rest with
      | [] => [0xFFFD]
      | b1 :: r1 =>
        if (if b = 0xF0 then 0x90 ≤ b1 ∧ b1 < 0xC0
            else if b = 0xF4 then 0x80 ≤ b1 ∧ b1 < 0x90
            else 0x80 ≤ b1 ∧ b1 < 0xC0) then
          match r1 with
          | [] => [0xFFFD]
          | b2 :: r2 =>
            if 0x80 ≤ b2 ∧ b2 < 0xC0 then
              match r2 with
              | [] => [0xFFFD]
              | b3 :: r3 =>
                if 0x80 ≤ b3 ∧ b3 < 0xC0 then
                  ((b - 0xF0) * 262144 + (b1 - 0x80) * 4096 + (b2 - 0x80) * 64 + (b3 - 0x80)) ::
                    utf8DecodeGo f r3
                else 0xFFFD :: utf8DecodeGo f (b3 :: r3)
            else 0xFFFD :: utf8DecodeGo f (b2 :: r2)
        else 0xFFFD :: utf8DecodeGo f (b1 :: r1)
    else 0xFFFD :: utf8DecodeGo f rest

/-- Lossy UTF-8 decoding with U+FFFD replacement, as performed by
`buffer.toString('utf8', …)`: on a malformed or truncated sequence one
replacement character is emitted per maximal valid subpart and decoding
resumes at the offending byte. -/
def utf8DecodeLossy (l : List Nat) : List Nat := utf8DecodeGo l.length l

/-- `BufWrapper.writeString` (src/index.ts lines 154–157, identical in
src/utils.ts lines 220–223): `writeVarInt(value.length)` — the UTF-16
code-unit count — followed by `Buffer.from(value)` — the UTF-8 bytes. -/
def writeString (value : String) : Except String Bytes :=
  match encodeVarint (utf16Length value) with
  | .error e => .error e
  | .ok lenBytes => .ok (lenBytes ++ utf8Encode value)

/-- The `while (length > 0)` loop of `readString` (src/utils.ts lines
236–248): decode `length` bytes (`buffer.toString` clamps the range),
advance the offset by `length`, subtract the decoded UTF-16 length, and
repeat.  When bytes run out while `length > 0` the JS loop reads the empty
string forever; the model reports that divergence as an error.  `fuel`
only bounds the recursion and is ample for every terminating run. -/
def readStringLoop (buf : Bytes) : Nat → Nat → Int → List Nat → Except String (List Nat × Nat)
  | fuel, offset, length, acc =>
    if length ≤ 0 then .ok (acc, offset)
    else
      let chunk := (buf.drop offset).take length.toNat
      if chunk.length = 0 then .error "readString: loop does not terminate"
      else
        match fuel with
        | 0 => .error "readString: out of fuel"
        | f + 1 =>
          let next := utf8DecodeLossy chunk
          readStringLoop buf f (offset + length.toNat) (length - utf16LengthCp next) (acc ++ next)

/-- `BufWrapper.readString` (src/utils.ts lines 236–248): read the varint
length, then run the chunk loop; the collected code points form the JS
string result. -/
def readString (buf : Bytes) (offset : Nat) : Except String (String × Nat) :=
  match decodeVarint buf offset with
  | .error e => .error e
  | .ok (length, consumed) =>
    match readStringLoop buf (length + 1) (offset + consumed) (length : Int) [] with
    | .error e => .error e
    | .ok (cps, offset2) => .ok (String.mk (cps.map Char.ofNat), offset2)

/-- Claim C2 (refuted; code bug): round-tripping the one-code-point string
"é" (U+00E9).  `writeString` emits length prefix 1 — the UTF-16 unit count
— but a 2-byte UTF-8 body, and `readString` returns the replacement
character U+FFFD after consuming only 1 body byte, not "é". -/
theorem string_roundtrip_fails_on_multibyte :
    writeString "é" = .ok [1, 0xC3, 0xA9] ∧
    readString [1, 0xC3, 0xA9] 0 = .ok ("�", 2) ∧
    "�" ≠ "é" := by
  refine ⟨?_, rfl, by decide⟩
  simp [writeString, encodeVarint, encodeLoop1, encodeLoop2, utf16Length, utf16LengthCp,
    utf8Encode, utf8EncodeChar]

/-! ## Fixed-width numeric primitives and raw byte reads

NodeJS `Buffer.readXXX`/`writeXXX` methods bounds-check and throw a
`RangeError` on out-of-range offsets or values; `Buffer.slice` and
`Buffer.toString` instead clamp the requested range silently. -/

/-- Big-endian base-256 digits of `n`, `k` bytes wide (most significant
first). -/
def beBytes : Nat → Nat → Bytes
  | 0, _ => []
  | k + 1, n => n / 256 ^ k % 256 :: beBytes k n

/-- `BufWrapper.writeInt`: `Buffer.writeInt32BE` bounds-checks
`-2^31 ≤ value ≤ 2^31 - 1` and stores the two's-complement big-endian
bytes. -/
def writeInt (value : Int) : Except String Bytes :=
  if value < -2147483648 ∨ 2147483647 < value then
    .error "The value of \"value\" is out of range"
  else .ok (beBytes 4 ((value % 4294967296).toNat))

/-- `BufWrapper.readInt`: `Buffer.readInt32BE`, bounds-checked signed
big-endian 32-bit read. -/
def readInt (buf : Bytes) (offset : Nat) : Except String (Int × Nat) :=
  if buf.length < offset + 4 then .error outOfBoundsMsg
  else
    let u : Nat := (byteAt buf offset).getD 0 * 16777216 +
      (byteAt buf (offset + 1)).getD 0 * 65536 +
      (byteAt buf (offset + 2)).getD 0 * 256 + (byteAt buf (offset + 3)).getD 0
    .ok (if u < 2147483648 then (u : Int) else (u : Int) - 4294967296, offset + 4)

/-- `BufWrapper.writeLong`: `Buffer.writeBigInt64BE(BigInt(value))`
bounds-checks `-2^63 ≤ value < 2^63` and stores the two's-complement
big-endian bytes. -/
def writeLong (value : Int) : Except String Bytes :=
  if value < -9223372036854775808 ∨ 9223372036854775807 < value then
    .error "The value of \"value\" is out of range"
  else .ok (beBytes 8 ((value % 18446744073709551616).toNat))

/-- `BufWrapper.readLong`: `Buffer.readBigInt64BE`, bounds-checked signed
big-endian 64-bit read.  (The JS wrapper then applies `Number(value)`,
which rounds beyond `2^53`; the model keeps the exact integer, which
agrees on the safe-integer range relevant to the claims.) -/
def readLong (buf : Bytes) (offset : Nat) : Except String (Int × Nat) :=
  if buf.length < offset + 8 then .error outOfBoundsMsg
  else
    let u : Nat := (byteAt buf offset).getD 0 * 72057594037927936 +
      (byteAt buf (offset + 1)).getD 0 * 281474976710656 +
      (byteAt buf (offset + 2)).getD 0 * 1099511627776 +
      (byteAt buf (offset + 3)).getD 0 * 4294967296 +
      (byteAt buf (offset + 4)).getD 0 * 16777216 +
      (byteAt buf (offset + 5)).getD 0 * 65536 +
      (byteAt buf (offset + 6)).getD 0 * 256 + (byteAt buf (offset + 7)).getD 0
    .ok (if u < 9223372036854775808 then (u : Int) else (u : Int) - 18446744073709551616,
      offset + 8)

/-- `BufWrapper.writeBoolean`: a single `0`/`1` byte; never fails. -/
def writeBoolean (value : Bool) : Bytes := [if value then 1 else 0]

/-- `BufWrapper.readBoolean`: `Buffer.readUInt8` (bounds-checked), then
compares the byte with `1`. -/
def readBoolean (buf : Bytes) (offset : Nat) : Except String (Bool × Nat) :=
  if buf.length < offset + 1 then .error outOfBoundsMsg
  else .ok (decide ((byteAt buf offset).getD 0 = 1), offset + 1)

/-- IEEE-754 bit pattern (round to nearest, ties to even) of the integer
`v` at `mantBits` mantissa bits and `expBits` exponent bits, overflowing
to the infinity pattern.  Used for `writeFloatBE` (23, 8) and
`writeDoubleBE` (52, 11); the numeric values the generator writes are
modelled as integers, for which this encoding is exact. -/
def ieeeBits (mantBits expBits : Nat) (v : Int) : Nat :=
  let sign : Nat := if v < 0 then 1 else 0
  let m := v.natAbs
  if m = 0 then sign * 2 ^ (expBits + mantBits)
  else
    let bias := 2 ^ (expBits - 1) - 1
    let e := Nat.log2 m
    if e ≤ mantBits then
      sign * 2 ^ (expBits + mantBits) + (e + bias) * 2 ^ mantBits +
        (m - 2 ^ e) * 2 ^ (mantBits - e)
    else
      let shift := e - mantBits
      let q := m / 2 ^ shift
      let r := m % 2 ^ shift
      let half := 2 ^ (shift - 1)
      let q2 := if half < r ∨ (r = half ∧ q % 2 = 1) then q + 1 else q
      let e2 := if q2 = 2 ^ (mantBits + 1) then e + 1 else e
      let frac := if q2 = 2 ^ (mantBits + 1) then 0 else q2 - 2 ^ mantBits
      if 2 ^ expBits - 1 ≤ e2 + bias then
        sign * 2 ^ (expBits + mantBits) + (2 ^ expBits - 1) * 2 ^ mantBits
      else sign * 2 ^ (expBits + mantBits) + (e2 + bias) * 2 ^ mantBits + frac

/-- `BufWrapper.writeFloat`: `Buffer.writeFloatBE` (accepts any number
without a range check). -/
def writeFloat (value : Int) : Bytes := beBytes 4 (ieeeBits 23 8 value)

/-- `BufWrapper.writeDouble`: `Buffer.writeDoubleBE`. -/
def writeDouble (value : Int) : Bytes := beBytes 8 (ieeeBits 52 11 value)

/-- `BufWrapper.readFloat`: `Buffer.readFloatBE`, bounds-checked 4-byte
read.  The value is returned as the raw bytes; its IEEE interpretation
plays no role in the verified claims. -/
def readFloat (buf : Bytes) (offset : Nat) : Except String (Bytes × Nat) :=
  if buf.length < offset + 4 then .error outOfBoundsMsg
  else .ok ((buf.drop offset).take 4, offset + 4)

/-- `BufWrapper.readDouble`: `Buffer.readDoubleBE`, bounds-checked 8-byte
read, value as raw bytes. -/
def readDouble (buf : Bytes) (offset : Nat) : Except String (Bytes × Nat) :=
  if buf.length < offset + 8 then .error outOfBoundsMsg
  else .ok ((buf.drop offset).take 8, offset + 8)

/-- `BufWrapper.writeBytes`: appends the raw bytes, no length prefix. -/
def writeBytes (value : Bytes) : Bytes := value

/-- `BufWrapper.readBytes` (src/index.ts lines 339–343):
`buffer.slice(offset, offset + length)` — which *clamps* the range rather
than bounds-checking — and `offset += length` unconditionally.  It can
never fail. -/
def readBytes (buf : Bytes) (offset length : Nat) : Bytes × Nat :=
  ((buf.drop offset).take length, offset + length)

/-- `BufWrapper.writeBlob` (src/utils.ts lines 593–596): 2-byte length
then the raw bytes; fails (via `writeUInt16BE`) when the blob exceeds
65535 bytes. -/
def writeBlob (data : Bytes) : Except String Bytes :=
  match writeShort (data.length : Int) with
  | .error e => .error e
  | .ok lenBytes => .ok (lenBytes ++ writeBytes data)

/-- `BufWrapper.readBlob` (src/utils.ts lines 606–610): bounds-checked
`readShort` for the length, then a clamping `readBytes` for the body. -/
def readBlob (buf : Bytes) (offset : Nat) : Except String (Bytes × Nat) :=
  match readShort buf offset with
  | .error e => .error e
  | .ok (len, offset2) => .ok (readBytes buf offset2 len.toNat)

/-- Claim C6 (amended): the bounds-checked primitives — varint decode,
int, long, short, float, double, boolean, and the blob's length header —
fail with a buffer-bounds error when fewer bytes remain past the offset
than the operation requires.  (Raw-byte reads — `readBytes` and the
string/UUID/blob payloads built on it — clamp silently instead; see the
counterexample.) -/
theorem bounds_checked_reads_fail_on_underrun (buf : Bytes) (offset : Nat) :
    (buf.length ≤ offset → decodeVarint buf offset = .error "Could not decode varint") ∧
    (buf.length < offset + 4 → readInt buf offset = .error outOfBoundsMsg) ∧
    (buf.length < offset + 8 → readLong buf offset = .error outOfBoundsMsg) ∧
    (buf.length < offset + 2 → readShort buf offset = .error outOfBoundsMsg) ∧
    (buf.length < offset + 4 → readFloat buf offset = .error outOfBoundsMsg) ∧
    (buf.length < offset + 8 → readDouble buf offset = .error outOfBoundsMsg) ∧
    (buf.length < offset + 1 → readBoolean buf offset = .error outOfBoundsMsg) ∧
    (buf.length < offset + 2 → readBlob buf offset = .error outOfBoundsMsg) := by
  refine ⟨fun h => ?_, fun h => ?_, fun h => ?_, fun h => ?_, fun h => ?_, fun h => ?_,
    fun h => ?_, fun h => ?_⟩
  · have b0 : byteAt buf offset = none := List.getElem?_eq_none (by omega)
    have b1 : byteAt buf (offset + 1) = none := List.getElem?_eq_none (by omega)
    have b2 : byteAt buf (offset + 2) = none := List.getElem?_eq_none (by omega)
    have b3 : byteAt buf (offset + 3) = none := List.getElem?_eq_none (by omega)
    have b4 : byteAt buf (offset + 4) = none := List.getElem?_eq_none (by omega)
    have b5 : byteAt buf (offset + 5) = none := List.getElem?_eq_none (by omega)
    have b6 : byteAt buf (offset + 6) = none := List.getElem?_eq_none (by omega)
    have b7 : byteAt buf (offset + 7) = none := List.getElem?_eq_none (by omega)
    simp [decodeVarint, b0, b1, b2, b3, b4, b5, b6, b7, low7, isLastByte]
  · rw [readInt, if_pos h]
  · rw [readLong, if_pos h]
  · rw [readShort, if_pos h]
  · rw [readFloat, if_pos h]
  · rw [readDouble, if_pos h]
  · rw [readBoolean, if_pos h]
  · rw [readBlob, readShort, if_pos h]

/-- Witness for C6 at a one-byte buffer and offset `0` (empty buffer for
the varint). -/
theorem bounds_checked_reads_fail_on_underrun_witness :
    decodeVarint [] 0 = .error "Could not decode varint" ∧
    readInt [0] 0 = .error outOfBoundsMsg ∧
    readLong [0] 0 = .error outOfBoundsMsg ∧
    readShort [0] 0 = .error outOfBoundsMsg ∧
    readFloat [0] 0 = .error outOfBoundsMsg ∧
    readDouble [0] 0 = .error outOfBoundsMsg ∧
    readBoolean [] 0 = .error outOfBoundsMsg ∧
    readBlob [0] 0 = .error outOfBoundsMsg :=
  ⟨(bounds_checked_reads_fail_on_underrun [] 0).1 (by decide),
    (bounds_checked_reads_fail_on_underrun [0] 0).2.1 (by decide),
    (bounds_checked_reads_fail_on_underrun [0] 0).2.2.1 (by decide),
    (bounds_checked_reads_fail_on_underrun [0] 0).2.2.2.1 (by decide),
    (bounds_checked_reads_fail_on_underrun [0] 0).2.2.2.2.1 (by decide),
    (bounds_checked_reads_fail_on_underrun [0] 0).2.2.2.2.2.1 (by decide),
    (bounds_checked_reads_fail_on_underrun [] 0).2.2.2.2.2.2.1 (by decide),
    (bounds_checked_reads_fail_on_underrun [0] 0).2.2.2.2.2.2.2 (by decide)⟩

/-- Claim C6 counterexample: `readBytes` asked for 3 bytes of an empty
buffer — fewer bytes remain than the operation requires — succeeds with
the truncated (empty) slice and a past-the-end cursor instead of
failing. -/
theorem readBytes_returns_truncated_on_underrun :
    ([] : Bytes).length < 0 + 3 ∧ readBytes [] 0 3 = ([], 3) :=
  ⟨by decide, rfl⟩

/-! ## Enum codec

`genEnums` (src/index.ts lines 699–715) emits
`export enum NameEnum { v = values.indexOf(v), … }`; `genWriteCode`'s enum
case (lines 647–649) emits `this.buf.writeShort(NameEnum[value])` and
`genReadCode`'s (lines 583–585) emits
`this.data… = NameEnum[this.buf.readShort()]`. -/

/-- Forward mapping of the generated TypeScript enum:
`NameEnum[v] = values.indexOf(v)`, `undefined` for an unknown value. -/
def enumOrdinal (values : List String) (v : String) : Option Nat :=
  if v ∈ values then some (values.indexOf v) else none

/-- Reverse mapping of the generated numeric TypeScript enum (its members
have the distinct ordinals `values.indexOf v`): `NameEnum[k]` is the
member with ordinal `k`, `undefined` for every negative or out-of-range
`k`. -/
def enumValueAt (values : List String) (k : Int) : Option String :=
  if k < 0 then none else values[k.toNat]?

/-- Runtime semantics of the generated enum write
(`this.buf.writeShort(NameEnum[value])`, default `short` backing width):
ordinal lookup, then an unsigned 16-bit write; `writeShort(undefined)`
throws. -/
def enumWrite (values : List String) (v : String) : Except String Bytes :=
  match enumOrdinal values v with
  | none => .error "writeShort: value is undefined"
  | some k => writeShort (k : Int)

/-- Runtime semantics of the generated enum read
(`this.data… = NameEnum[this.buf.readShort()]`): a bounds-checked *signed*
short read, then the reverse enum lookup, whose possibly-`undefined`
result is assigned without any range check. -/
def enumRead (values : List String) (buf : Bytes) (offset : Nat) :
    Except String (Option String × Nat) :=
  match readShort buf offset with
  | .error e => .error e
  | .ok (k, offset2) => .ok (enumValueAt values k, offset2)

/-- A 2-byte big-endian wire ordinal below `2^15` reads back as itself. -/
lemma readShort_wire_ordinal (k : Nat) (hb : k < 32768) :
    readShort [k / 256, k % 256] 0 = .ok ((k : Int), 2) := by
  rw [readShort]
  rw [if_neg (by simp only [List.length_cons, List.length_nil]; omega)]
  simp only [byteAt, List.getElem?_cons_zero, List.getElem?_cons_succ, zero_add,
    Nat.reduceAdd, Option.getD_some]
  rw [if_pos (show (k / 256 * 256 + k % 256 : Nat) < 32768 by omega)]
  refine congrArg Except.ok ?_
  refine Prod.ext ?_ rfl
  show ((k / 256 * 256 + k % 256 : Nat) : Int) = (k : Int)
  omega

/-- Claim C3 (amended): for distinct `values` and `k < values.length`,
encoding `values[k]` writes exactly the big-endian 16-bit ordinal `k`
whenever it is representable (`k < 2^16`), and decoding the wire ordinal
`k` returns `values[k]` for `k < 2^15` — the bound forced by the signed
`readShort` (see the counterexample and C10).  Neither direction depends
on any other content of the schema. -/
theorem enum_ordinal_roundtrip (values : List String) (k : Nat)
    (hnd : values.Nodup) (hk : k < values.length) :
    (k < 65536 → enumWrite values values[k] = .ok [k / 256, k % 256]) ∧
    (k < 32768 → enumRead values [k / 256, k % 256] 0 = .ok (some values[k], 2)) := by
  constructor
  · intro hb
    rw [enumWrite, enumOrdinal, if_pos (values.getElem_mem hk),
      List.indexOf_getElem hnd k hk]
    show writeShort (k : Int) = .ok [k / 256, k % 256]
    rw [writeShort, if_neg (by omega)]
    rfl
  · intro hb
    rw [enumRead, readShort_wire_ordinal k hb]
    show Except.ok (enumValueAt values (k : Int), 2) = _
    rw [enumValueAt, if_neg (by omega), show ((k : Int)).toNat = k from rfl,
      List.getElem?_eq_getElem hk]

/-- Witness for C3 at `values = ["OK", "ERROR"]`, `k = 1`. -/
theorem enum_ordinal_roundtrip_witness :
    enumWrite ["OK", "ERROR"] "ERROR" = .ok [0, 1] ∧
    enumRead ["OK", "ERROR"] [0, 1] 0 = .ok (some "ERROR", 2) := by
  have h := enum_ordinal_roundtrip ["OK", "ERROR"] 1 (by decide) (by decide)
  refine ⟨?_, ?_⟩
  · simpa using h.1 (by decide)
  · simpa using h.2 (by decide)

/-- 32769 pairwise-distinct enum value names. -/
def bigEnumValues : List String :=
  (List.range 32769).map (fun i => String.mk (List.replicate i 'a'))

/-- Claim C3 counterexample: a (distinct-valued) enum with 32769 values;
the wire ordinal `32768` (bytes `[0x80, 0x00]`) satisfies
`k < values.length`, yet decoding returns `undefined` (`none`) — because
`readShort` reads the ordinal back as `-32768` — not `values[32768]`. -/
theorem enum_decode_fails_beyond_int16 :
    bigEnumValues.Nodup ∧ 32768 < bigEnumValues.length ∧
    enumRead bigEnumValues [128, 0] 0 = .ok (none, 2) := by
  refine ⟨?_, ?_, rfl⟩
  · refine List.Nodup.map ?_ (List.nodup_range 32769)
    intro i j hij
    have hdata : List.replicate i 'a' = List.replicate j 'a' := congrArg String.data hij
    simpa using congrArg List.length hdata
  · simp [bigEnumValues]

/-- Claim C7 (amended): decoding a wire ordinal `k ≥ values.length` (at
the representable range of the signed short read) *succeeds* with an
`undefined` (`none`) value — no `EnumOrdinalOutOfRange` error is
raised. -/
theorem enum_decode_out_of_range_is_silent (values : List String) (k : Nat)
    (hk : values.length ≤ k) (hb : k < 32768) :
    enumRead values [k / 256, k % 256] 0 = .ok (none, 2) := by
  rw [enumRead, readShort_wire_ordinal k hb]
  show Except.ok (enumValueAt values (k : Int), 2) = _
  rw [enumValueAt, if_neg (by omega), show ((k : Int)).toNat = k from rfl,
    List.getElem?_eq_none hk]

/-- Witness for C7: the two-value enum `["OK", "ERROR"]` decoding wire
ordinal `2`. -/
theorem enum_decode_out_of_range_is_silent_witness :
    enumRead ["OK", "ERROR"] [0, 2] 0 = .ok (none, 2) := by
  have h := enum_decode_out_of_range_is_silent ["OK", "ERROR"] 2 (by decide) (by decide)
  simpa using h

/-- Claim C7 counterexample: decoding wire ordinal `2` against the
two-value enum `["OK", "ERROR"]` returns `.ok` with an `undefined` value
instead of failing with a decode error. -/
theorem enum_decode_out_of_range_returns_ok :
    (["OK", "ERROR"] : List String).length ≤ 2 ∧
    enumRead ["OK", "ERROR"] [0, 2] 0 = .ok (none, 2) :=
  ⟨by decide, rfl⟩

/-! ## Schema model (src/Types.ts)

`ProtocolSpecData` field descriptors, normalized as the generator consumes
them (`genWriteCode` reads a bare scalar string as `{type: s}`).  Array
bodies are field trees, as the cited generator (src/index.ts) treats
them. -/

/-- `ProtocolSpecRegularDataTypes` (src/Types.ts line 35). -/
inductive RegType where
  | varInt | string | int | long | stringArray | intArray | bytes | boolean
  | float | short | double
deriving DecidableEq

/-- `typeMappings` (src/utils.ts lines 1–13). -/
def typeMappings : RegType → String
  | .varInt => "number"
  | .string => "string"
  | .int => "number"
  | .long => "number"
  | .stringArray => "string[]"
  | .intArray => "number[]"
  | .bytes => "Buffer"
  | .boolean => "boolean"
  | .float => "number"
  | .short => "number"
  | .double => "number"

mutual
/-- A field descriptor: a regular scalar, `{type:'array', data}`,
`{type:'object', data}` (inline record), `{type:'object', keyType,
valueType}` (map), or `{type:'enum', name, values}`. -/
inductive Item where
  | regular (t : RegType)
  | array (data : SpecData)
  | object (data : SpecData)
  | map (keyType : RegType) (valueType : Item)
  | enum (name : String) (values : List String)
/-- An ordered field tree (`ProtocolSpecData`); JS object iteration order
is insertion order for string keys. -/
inductive SpecData where
  | nil
  | cons (key : String) (item : Item) (rest : SpecData)
end

/-! ## Runtime values

The JS values the generated codecs operate on.  Numbers are modelled as
integers (the schema's numeric fields carry integral protocol values; the
IEEE encodings above are exact on them). -/

mutual
/-- A runtime JS value. -/
inductive Val where
  | num (n : Int)
  | str (s : String)
  | bool (b : Bool)
  | bytes (b : List Nat)
  | undefinedV
  | arr (elems : ValList)
  | obj (fields : ValFields)
/-- An array value's elements. -/
inductive ValList where
  | nil
  | cons (v : Val) (rest : ValList)
/-- An object value's ordered own properties. -/
inductive ValFields where
  | nil
  | cons (key : String) (v : Val) (rest : ValFields)
end

/-- Property lookup: `undefined` when absent. -/
def ValFields.lookup : ValFields → String → Val
  | .nil, _ => .undefinedV
  | .cons k v rest, key => if k = key then v else rest.lookup key

/-- JS property access `v[key]`; non-objects yield no useful property
(accesses that would throw in JS surface as writes of `undefined`, which
fail). -/
def vlookup : Val → String → Val
  | .obj fields, key => fields.lookup key
  | _, _ => .undefinedV

/-- `value.length` of an array. -/
def ValList.length : ValList → Nat
  | .nil => 0
  | .cons _ rest => rest.length + 1

/-- `Object.keys(value).length`. -/
def ValFields.length : ValFields → Nat
  | .nil => 0
  | .cons _ _ rest => rest.length + 1

/-- Modelled JS `Number(key)` on the canonical nonnegative decimal strings
that occur as numeric map keys; anything else is `NaN`, surfaced as
`none`. -/
def jsNumberOfKey (s : String) : Option Int :=
  if s.data ≠ [] ∧ s.data.all (fun c => '0' ≤ c ∧ c ≤ '9') then
    some (s.data.foldl (fun acc c => acc * 10 + ((c.toNat : Int) - 48)) 0)
  else none

/-- Dispatch of one generated `this.buf.write<Type>(value)` call
(`genWriteCode`'s regular case, src/index.ts line 652).  A value whose
shape does not match the primitive is modelled as an error (the Buffer
methods throw on such type confusion); a negative `writeVarInt` argument,
which the JS encoder would turn into an unsigned-reinterpretation garbage
encoding, is likewise modelled as an error — no claim involves either. -/
def writePrim : RegType → Val → Except String Bytes
  | .varInt, .num n => if 0 ≤ n then encodeVarint n.toNat else .error "writeVarInt: negative"
  | .string, .str s => writeString s
  | .int, .num n => writeInt n
  | .long, .num n => writeLong n
  | .bytes, .bytes b => .ok (writeBytes b)
  | .boolean, .bool b => .ok (writeBoolean b)
  | .float, .num n => .ok (writeFloat n)
  | .double, .num n => .ok (writeDouble n)
  | .short, .num n => writeShort n
  | .stringArray, .arr elems => writeStringArrayPrim elems
  | .intArray, .arr elems => writeIntArrayPrim elems
  | _, _ => .error "write: value type mismatch"
where
  /-- `BufWrapper.writeStringArray`: varint count then each string. -/
  writeStringArrayPrim (elems : ValList) : Except String Bytes :=
    match encodeVarint elems.length with
    | .error e => .error e
    | .ok lenBytes =>
      match goStr elems with
      | .error e => .error e
      | .ok body => .ok (lenBytes ++ body)
  goStr : ValList → Except String Bytes
    | .nil => .ok []
    | .cons (.str s) rest =>
      match writeString s with
      | .error e => .error e
      | .ok bs =>
        match goStr rest with
        | .error e => .error e
        | .ok bss => .ok (bs ++ bss)
    | .cons _ _ => .error "writeStringArray: element type mismatch"
  /-- `BufWrapper.writeIntArray`: varint count then each int32. -/
  writeIntArrayPrim (elems : ValList) : Except String Bytes :=
    match encodeVarint elems.length with
    | .error e => .error e
    | .ok lenBytes =>
      match goInt elems with
      | .error e => .error e
      | .ok body => .ok (lenBytes ++ body)
  goInt : ValList → Except String Bytes
    | .nil => .ok []
    | .cons (.num n) rest =>
      match writeInt n with
      | .error e => .error e
      | .ok bs =>
        match goInt rest with
        | .error e => .error e
        | .ok bss => .ok (bs ++ bss)
    | .cons _ _ => .error "writeIntArray: element type mismatch"

/-- The generated map-key write
(`this.buf.write<KeyType>(typeMappings[keyType] === 'number' ? Number(key) : key)`,
src/index.ts line 633). -/
def writeMapKey (keyType : RegType) (key : String) : Except String Bytes :=
  if typeMappings keyType = "number" then
    match jsNumberOfKey key with
    | none => .error "write: map key is not a number"
    | some n => writePrim keyType (.num n)
  else writePrim keyType (.str key)

mutual
/-- Runtime effect of the statement sequence `genWriteCode`
(src/index.ts lines 594–657) emits for the field tree `data`, on the
value `v` its key paths address, threading the accumulated buffer `acc`
(the oneConcat `BufWrapper` every emitted statement appends to). -/
def runWriteFields : SpecData → Val → Bytes → Except String Bytes
  | .nil, _, acc => .ok acc
  | .cons key item rest, v, acc =>
    match runWriteItem item (vlookup v key) acc with
    | .error e => .error e
    | .ok acc2 => runWriteFields rest v acc2
termination_by data v _ => (sizeOf data, sizeOf v)

/-- Runtime effect of the code emitted for a single field of descriptor
`item` whose key path evaluates to `v`. -/
def runWriteItem : Item → Val → Bytes → Except String Bytes
  | .regular t, v, acc =>
    match writePrim t v with
    | .error e => .error e
    | .ok bs => .ok (acc ++ bs)
  | .array data, v, acc =>
    -- `writeVarInt(path.length); for (const it of path) { <element fields> }`
    match v with
    | .arr elems =>
      match encodeVarint elems.length with
      | .error e => .error e
      | .ok lenBytes => runWriteElems data elems (acc ++ lenBytes)
    | _ => .error "write: array field is not an array"
  | .object data, v, acc =>
    -- inline record: the emitted operations splice in at the same depth
    runWriteFields data v acc
  | .map keyType valueType, v, acc =>
    -- `writeVarInt(Object.keys(path).length); for (const key in path) { … }`
    match v with
    | .obj fields =>
      match encodeVarint fields.length with
      | .error e => .error e
      | .ok lenBytes => runWriteEntries keyType valueType fields (acc ++ lenBytes)
    | _ => .error "write: map field is not an object"
  | .enum _ values, v, acc =>
    -- `this.buf.writeShort(<Name>Enum[path])`
    match v with
    | .str s =>
      match enumWrite values s with
      | .error e => .error e
      | .ok bs => .ok (acc ++ bs)
    | _ => .error "write: enum field is not one of its values"
termination_by item v _ => (sizeOf item, sizeOf v)

/-- The array loop body: each element runs the element field tree. -/
def runWriteElems : SpecData → ValList → Bytes → Except String Bytes
  | _, .nil, acc => .ok acc
  | data, .cons v rest, acc =>
    match runWriteFields data v acc with
    | .error e => .error e
    | .ok acc2 => runWriteElems data rest acc2
termination_by data elems _ => (sizeOf data, sizeOf elems)

/-- The map loop body: each entry writes its key then its value. -/
def runWriteEntries : RegType → Item → ValFields → Bytes → Except String Bytes
  | _, _, .nil, acc => .ok acc
  | keyType, valueType, .cons key v rest, acc =>
    match writeMapKey keyType key with
    | .error e => .error e
    | .ok keyBytes =>
      match runWriteItem valueType v (acc ++ keyBytes) with
      | .error e => .error e
      | .ok acc2 => runWriteEntries keyType valueType rest acc2
termination_by _ valueType fields _ => (sizeOf valueType, sizeOf fields)
end

/-- The generated `write` method (src/index.ts lines 731–741): a fresh
buffer, `writeVarInt(<Name>Packet.id)`, then the field statements;
`finish()` concatenates the pushed chunks in order. -/
def writePacket (id : Nat) (data : SpecData) (v : Val) : Except String Bytes :=
  match encodeVarint id with
  | .error e => .error e
  | .ok idBytes => runWriteFields data v idBytes

/-- From the spec's words (§4.3/§6): the concatenation, in declaration
order, of the per-field encodings — each field's write program run on an
empty buffer. -/
def fieldEncodings : SpecData → Val → Except String Bytes
  | .nil, _ => .ok []
  | .cons key item rest, v =>
    match runWriteItem item (vlookup v key) [] with
    | .error e => .error e
    | .ok bs =>
      match fieldEncodings rest v with
      | .error e => .error e
      | .ok body => .ok (bs ++ body)

mutual
theorem runWriteFields_append (data : SpecData) (v : Val) (acc : Bytes) :
    runWriteFields data v acc = (runWriteFields data v []).map (fun out => acc ++ out) := by
  match data with
  | .nil => simp [runWriteFields, Except.map]
  | .cons key item rest =>
    simp only [runWriteFields]
    rw [runWriteItem_append item (vlookup v key) acc]
    cases h : runWriteItem item (vlookup v key) [] with
    | error e => simp [Except.map]
    | ok bs =>
      simp only [Except.map, List.nil_append]
      rw [runWriteFields_append rest v (acc ++ bs), runWriteFields_append rest v bs]
      cases runWriteFields rest v [] <;> simp [Except.map, List.append_assoc]
termination_by (sizeOf data, sizeOf v)

theorem runWriteItem_append (item : Item) (v : Val) (acc : Bytes) :
    runWriteItem item v acc = (runWriteItem item v []).map (fun out => acc ++ out) := by
  match item with
  | .regular t =>
    simp only [runWriteItem]
    cases writePrim t v <;> simp [Except.map]
  | .array data =>
    match v with
    | .arr elems =>
      simp only [runWriteItem]
      cases h : encodeVarint elems.length with
      | error e => simp [Except.map]
      | ok lenBytes =>
        simp only [Except.map, List.nil_append]
        rw [runWriteElems_append data elems (acc ++ lenBytes),
          runWriteElems_append data elems lenBytes]
        cases runWriteElems data elems [] <;> simp [Except.map, List.append_assoc]
    | .num n => simp [runWriteItem, Except.map]
    | .str s => simp [runWriteItem, Except.map]
    | .bool b => simp [runWriteItem, Except.map]
    | .bytes b => simp [runWriteItem, Except.map]
    | .undefinedV => simp [runWriteItem, Except.map]
    | .obj fields => simp [runWriteItem, Except.map]
  | .object data =>
    simp only [runWriteItem]
    exact runWriteFields_append data v acc
  | .map keyType valueType =>
    match v with
    | .obj fields =>
      simp only [runWriteItem]
      cases h : encodeVarint fields.length with
      | error e => simp [Except.map]
      | ok lenBytes =>
        simp only [Except.map, List.nil_append]
        rw [runWriteEntries_append keyType valueType fields (acc ++ lenBytes),
          runWriteEntries_append keyType valueType fields lenBytes]
        cases runWriteEntries keyType valueType fields [] <;>
          simp [Except.map, List.append_assoc]
    | .num n => simp [runWriteItem, Except.map]
    | .str s => simp [runWriteItem, Except.map]
    | .bool b => simp [runWriteItem, Except.map]
    | .bytes b => simp [runWriteItem, Except.map]
    | .undefinedV => simp [runWriteItem, Except.map]
    | .arr elems => simp [runWriteItem, Except.map]
  | .enum name values =>
    match v with
    | .str s =>
      simp only [runWriteItem]
      cases enumWrite values s <;> simp [Except.map]
    | .num n => simp [runWriteItem, Except.map]
    | .bool b => simp [runWriteItem, Except.map]
    | .bytes b => simp [runWriteItem, Except.map]
    | .undefinedV => simp [runWriteItem, Except.map]
    | .arr elems => simp [runWriteItem, Except.map]
    | .obj fields => simp [runWriteItem, Except.map]
termination_by (sizeOf item, sizeOf v)

theorem runWriteElems_append (data : SpecData) (elems : ValList) (acc : Bytes) :
    runWriteElems data elems acc = (runWriteElems data elems []).map (fun out => acc ++ out) := by
  match elems with
  | .nil => simp [runWriteElems, Except.map]
  | .cons v rest =>
    simp only [runWriteElems]
    rw [runWriteFields_append data v acc]
    cases h : runWriteFields data v [] with
    | error e => simp [Except.map]
    | ok bs =>
      simp only [Except.map, List.nil_append]
      rw [runWriteElems_append data rest (acc ++ bs), runWriteElems_append data rest bs]
      cases runWriteElems data rest [] <;> simp [Except.map, List.append_assoc]
termination_by (sizeOf data, sizeOf elems)

theorem runWriteEntries_append (keyType : RegType) (valueType : Item) (fields : ValFields)
    (acc : Bytes) :
    runWriteEntries keyType valueType fields acc =
      (runWriteEntries keyType valueType fields []).map (fun out => acc ++ out) := by
  match fields with
  | .nil => simp [runWriteEntries, Except.map]
  | .cons key v rest =>
    simp only [runWriteEntries]
    cases hk : writeMapKey keyType key with
    | error e => simp [Except.map]
    | ok keyBytes =>
      simp only [Except.map, List.nil_append]
      rw [runWriteItem_append valueType v (acc ++ keyBytes),
        runWriteItem_append valueType v keyBytes]
      cases hv : runWriteItem valueType v [] with
      | error e => simp [Except.map]
      | ok bs =>
        simp only [Except.map, List.nil_append]
        rw [runWriteEntries_append keyType valueType rest (acc ++ keyBytes ++ bs),
          runWriteEntries_append keyType valueType rest (keyBytes ++ bs)]
        cases runWriteEntries keyType valueType rest [] <;>
          simp [Except.map, List.append_assoc]
termination_by (sizeOf valueType, sizeOf fields)
end

/-- The field statements run on an empty buffer produce exactly the
concatenated per-field encodings. -/
lemma runWriteFields_nil_eq (data : SpecData) (v : Val) :
    runWriteFields data v [] = fieldEncodings data v := by
  match data with
  | .nil => simp [runWriteFields, fieldEncodings]
  | .cons key item rest =>
    simp only [runWriteFields, fieldEncodings]
    cases h : runWriteItem item (vlookup v key) [] with
    | error e => simp
    | ok bs =>
      simp only [List.nil_append]
      rw [runWriteFields_append rest v bs, runWriteFields_nil_eq rest v]
      cases fieldEncodings rest v <;> simp [Except.map]

/-- Claim C4: the generated packet write produces `varint(packetId)`
followed by the concatenation of the field encodings in declaration
order; in particular the `Ping` packet
(`{"Ping":{"id":0,"direction":"both","data":{"timestamp":"long"}}}`) at
`{timestamp: 123456789}` encodes to `varint(0)` followed by the 8-byte
big-endian `123456789`. -/
theorem packet_wire_format (id : Nat) (data : SpecData) (v : Val) :
    writePacket id data v =
      (match encodeVarint id with
       | .error e => .error e
       | .ok idBytes => (fieldEncodings data v).map (fun body => idBytes ++ body)) ∧
    writePacket 0 (SpecData.cons "timestamp" (.regular .long) .nil)
        (.obj (.cons "timestamp" (.num 123456789) .nil)) =
      .ok [0, 0, 0, 0, 0, 7, 91, 205, 21] := by
  constructor
  · rw [writePacket]
    cases encodeVarint id with
    | error e => rfl
    | ok idBytes =>
      show runWriteFields data v idBytes = _
      rw [runWriteFields_append data v idBytes, runWriteFields_nil_eq]
  · simp [writePacket, encodeVarint, encodeLoop1, encodeLoop2, runWriteFields, runWriteItem,
      writePrim, writeLong, beBytes, vlookup, ValFields.lookup]

/-! ## Packet registries and dispatch (the generated `index.ts`,
src/index.ts lines 759–883) -/

/-- A packet's direction. -/
inductive Direction where
  | incoming | outgoing | both
deriving DecidableEq

/-- One packet of the validated `ProtocolSpec`. -/
structure PacketDef where
  name : String
  id : Nat
  direction : Direction
  data : SpecData

/-- The validated schema: ordered packet definitions (JS object insertion
order). -/
abbrev Protocol := List PacketDef

/-- The generated `IncomingPackets` registry: the packets whose direction
is `incoming` or `both`, in schema order (src/index.ts lines 771–776). -/
def IncomingPackets (spec : Protocol) : List PacketDef :=
  spec.filter (fun p => p.direction == Direction.incoming || p.direction == Direction.both)

/-- The generated `OutgoingPackets` registry (src/index.ts lines
829–834). -/
def OutgoingPackets (spec : Protocol) : List PacketDef :=
  spec.filter (fun p => p.direction == Direction.outgoing || p.direction == Direction.both)

/-- The generated `readIncomingPacket` (src/index.ts lines 803–825): wrap
the buffer, read the leading varint ID, resolve the codec by
`IncomingPackets.find(p => p.id == id)` — the first match in registry
order — throw the unknown-packet error when there is none, else run the
packet's generated read program on the remaining bytes and return
`{id, packet, data}`.  The per-packet read program is the `runRead`
parameter; dispatch does not depend on it. -/
def readIncomingPacket (runRead : SpecData → Bytes → Nat → Except String Val)
    (spec : Protocol) (data : Bytes) : Except String (Nat × String × Val) :=
  match decodeVarint data 0 with
  | .error e => .error e
  | .ok (id, consumed) =>
    match (IncomingPackets spec).find? (fun p => p.id == id) with
    | none => .error ("Could not find Incoming Packet with ID " ++ toString id)
    | some p =>
      match runRead p.data data consumed with
      | .error e => .error e
      | .ok v => .ok (p.id, p.name, v)

/-- The generated `readOutgoingPacket` (src/index.ts lines 861–883). -/
def readOutgoingPacket (runRead : SpecData → Bytes → Nat → Except String Val)
    (spec : Protocol) (data : Bytes) : Except String (Nat × String × Val) :=
  match decodeVarint data 0 with
  | .error e => .error e
  | .ok (id, consumed) =>
    match (OutgoingPackets spec).find? (fun p => p.id == id) with
    | none => .error ("Could not find Outgoing Packet with ID " ++ toString id)
    | some p =>
      match runRead p.data data consumed with
      | .error e => .error e
      | .ok v => .ok (p.id, p.name, v)

lemma find_first_match {α : Type} (pred : α → Bool) :
    ∀ (pre : List α) (x : α) (post : List α), (∀ q ∈ pre, pred q = false) → pred x = true →
      (pre ++ x :: post).find? pred = some x := by
  intro pre
  induction pre with
  | nil =>
    intro x post _ hx
    simp [List.find?, hx]
  | cons q rest ih =>
    intro x post hpre hx
    have hq : pred q = false := hpre q (List.mem_cons_self q rest)
    simp only [List.cons_append, List.find?, hq]
    exact ih x post (fun r hr => hpre r (List.mem_cons_of_mem q hr)) hx

/-- Claim C5: decoding a buffer whose leading varint ID has no packet in
the target direction's registry fails with the unknown-packet error (and,
the model being pure, touches no other state); when the ID is registered,
the codec used is the first packet in registry order whose ID matches.
Stated for both direction registries and for an arbitrary per-packet read
program `runRead`. -/
theorem unknown_id_and_first_match_dispatch
    (runRead : SpecData → Bytes → Nat → Except String Val) (spec : Protocol)
    (data : Bytes) (id consumed : Nat)
    (hdec : decodeVarint data 0 = .ok (id, consumed)) :
    ((∀ p ∈ IncomingPackets spec, p.id ≠ id) →
      readIncomingPacket runRead spec data =
        .error ("Could not find Incoming Packet with ID " ++ toString id)) ∧
    (∀ pre p post, IncomingPackets spec = pre ++ p :: post → p.id = id →
      (∀ q ∈ pre, q.id ≠ id) →
      readIncomingPacket runRead spec data =
        match runRead p.data data consumed with
        | .error e => .error e
        | .ok v => .ok (p.id, p.name, v)) ∧
    ((∀ p ∈ OutgoingPackets spec, p.id ≠ id) →
      readOutgoingPacket runRead spec data =
        .error ("Could not find Outgoing Packet with ID " ++ toString id)) ∧
    (∀ pre p post, OutgoingPackets spec = pre ++ p :: post → p.id = id →
      (∀ q ∈ pre, q.id ≠ id) →
      readOutgoingPacket runRead spec data =
        match runRead p.data data consumed with
        | .error e => .error e
        | .ok v => .ok (p.id, p.name, v)) := by
  refine ⟨fun habs => ?_, fun pre p post hreg hid hpre => ?_,
    fun habs => ?_, fun pre p post hreg hid hpre => ?_⟩
  · have hfind : (IncomingPackets spec).find? (fun p => p.id == id) = none := by
      rw [List.find?_eq_none]
      intro q hq
      simpa using habs q hq
    simp only [readIncomingPacket, hdec, hfind]
  · have hfind : (pre ++ p :: post).find? (fun q => q.id == id) = some p :=
      find_first_match (fun q => q.id == id) pre p post
        (fun q hq => by simpa using hpre q hq) (by simpa using hid)
    simp only [readIncomingPacket, hdec, hreg, hfind]
  · have hfind : (OutgoingPackets spec).find? (fun p => p.id == id) = none := by
      rw [List.find?_eq_none]
      intro q hq
      simpa using habs q hq
    simp only [readOutgoingPacket, hdec, hfind]
  · have hfind : (pre ++ p :: post).find? (fun q => q.id == id) = some p :=
      find_first_match (fun q => q.id == id) pre p post
        (fun q hq => by simpa using hpre q hq) (by simpa using hid)
    simp only [readOutgoingPacket, hdec, hreg, hfind]

/-- A three-packet demo protocol: two `both` packets sharing ID 1 and an
`outgoing` packet with ID 2. -/
def demoProtocol : Protocol :=
  [⟨"A", 1, .both, .nil⟩, ⟨"B", 1, .both, .nil⟩, ⟨"C", 2, .outgoing, .nil⟩]

/-- A trivial per-packet read program for exercising dispatch. -/
def demoRead : SpecData → Bytes → Nat → Except String Val := fun _ _ _ => .ok .undefinedV

/-- Witness for C5 on `demoProtocol`: ID 5 is unknown; ID 1 is claimed by
both `A` and `B` and dispatch picks `A`, the first in registry order. -/
theorem unknown_id_and_first_match_dispatch_witness :
    readIncomingPacket demoRead demoProtocol [5] =
      .error ("Could not find Incoming Packet with ID " ++ toString 5) ∧
    readIncomingPacket demoRead demoProtocol [1] = .ok (1, "A", .undefinedV) := by
  constructor
  · exact (unknown_id_and_first_match_dispatch demoRead demoProtocol [5] 5 1 rfl).1
      (by decide)
  · have h := (unknown_id_and_first_match_dispatch demoRead demoProtocol [1] 1 1 rfl).2.1
      [] ⟨"A", 1, .both, .nil⟩ [⟨"B", 1, .both, .nil⟩] (by rfl) rfl (by decide)
    simpa [demoRead] using h

/-! ## Raw schema validation (src/Types.ts lines 35–92)

The validator receives arbitrary parsed JSON, so it is modelled over a raw
JS value type. -/

mutual
/-- A raw JS value. -/
inductive JVal where
  | jstr (s : String)
  | jnum (n : Int)
  | jbool (b : Bool)
  | jnull
  | jundefined
  | jarr (elems : JList)
  | jobj (fields : JFields)
/-- Elements of a raw JS array. -/
inductive JList where
  | nil
  | cons (v : JVal) (rest : JList)
/-- Ordered own properties of a raw JS object. -/
inductive JFields where
  | nil
  | cons (key : String) (v : JVal) (rest : JFields)
end

deriving instance DecidableEq for JVal

/-- Property lookup on raw objects; `undefined` when absent. -/
def JFields.get : JFields → String → JVal
  | .nil, _ => .jundefined
  | .cons k v rest, key => if k = key then v else rest.get key

/-- JS property access `v[key]` (`undefined` off objects; the claims never
exercise the throwing `null`/`undefined` base case). -/
def JVal.get : JVal → String → JVal
  | .jobj fields, key => fields.get key
  | _, _ => .jundefined

/-- JS truthiness. -/
def jsTruthy : JVal → Bool
  | .jstr s => !(s = "")
  | .jnum n => !(n = 0)
  | .jbool b => b
  | .jnull => false
  | .jundefined => false
  | .jarr _ => true
  | .jobj _ => true

/-- JS `typeof`. -/
def jsTypeof : JVal → String
  | .jstr _ => "string"
  | .jnum _ => "number"
  | .jbool _ => "boolean"
  | .jnull => "object"
  | .jundefined => "undefined"
  | .jarr _ => "object"
  | .jobj _ => "object"

/-- `ProtocolSpecRegularDataTypes` (src/Types.ts line 35). -/
def ProtocolSpecRegularDataTypes : List String :=
  ["varInt", "string", "int", "long", "stringArray", "intArray", "bytes", "boolean",
    "float", "short", "double"]

/-- `ProtocolSpecSpecialDataTypes` (src/Types.ts line 37). -/
def ProtocolSpecSpecialDataTypes : List String := ["array", "object", "enum"]

/-- `ProtocolSpecAllDataTypes` (src/Types.ts line 39). -/
def ProtocolSpecAllDataTypes : List String :=
  ProtocolSpecRegularDataTypes ++ ProtocolSpecSpecialDataTypes

/-- `list.includes(v)` where `v` is a raw value: only a string can be a
member of a string list. -/
def includesJ (l : List String) : JVal → Bool
  | .jstr s => decide (s ∈ l)
  | _ => false

/-- `values.map(i => typeof i === 'string').includes(false)` negated:
every element is a string. -/
def allStringsJ : JList → Bool
  | .nil => true
  | .cons (.jstr _) rest => allStringsJ rest
  | .cons _ _ => false

lemma JFields.get_sizeOf_le (fields : JFields) (key : String) :
    sizeOf (fields.get key) ≤ sizeOf fields := by
  match fields with
  | .nil => simp [JFields.get]
  | .cons k v rest =>
    rw [JFields.get]
    have ih := JFields.get_sizeOf_le rest key
    by_cases h : k = key
    · rw [if_pos h]
      simp only [JFields.cons.sizeOf_spec]
      omega
    · rw [if_neg h]
      simp only [JFields.cons.sizeOf_spec]
      omega

mutual
/-- `isValidProtocolSpecData` (src/Types.ts lines 55–92):
`if (!data || typeof data !== 'object') return false;` then the `for key
in data` loop over the entries (an array's entries are visited under its
index keys). -/
def isValidProtocolSpecData : JVal → Bool
  | .jobj fields => checkDataFields fields
  | .jarr elems => checkDataElems elems
  | _ => false
termination_by data => sizeOf data

/-- The validator loop over an object's entries. -/
def checkDataFields : JFields → Bool
  | .nil => true
  | .cons _ item rest => checkDataItem item && checkDataFields rest
termination_by fields => sizeOf fields

/-- The validator loop over an array's entries. -/
def checkDataElems : JList → Bool
  | .nil => true
  | .cons item rest => checkDataItem item && checkDataElems rest
termination_by elems => sizeOf elems

/-- One iteration of the validator loop (src/Types.ts lines 61–88):
`if (!item) return false`; a string must be a regular type name; an
object dispatches on its truthy `data`, its truthy `keyType`/`valueType`
pair, or `type === 'enum'`, else fails; anything else fails.
The source's map branch validates `{placeholder: valueType}`, which this
model writes as the equal `checkDataItem valueType` — see
`placeholder_wrap_eq`. -/
def checkDataItem : JVal → Bool
  | .jstr s => decide (s ∈ ProtocolSpecRegularDataTypes)
  | .jobj fields =>
    if includesJ ProtocolSpecAllDataTypes (fields.get "type") = false then false
    else if includesJ ProtocolSpecSpecialDataTypes (fields.get "type") then
      if jsTruthy (fields.get "data") then
        if !(fields.get "type" == JVal.jstr "array" &&
            includesJ ProtocolSpecRegularDataTypes (fields.get "data")) then
          isValidProtocolSpecData (fields.get "data")
        else true
      else if jsTruthy (fields.get "keyType") && jsTruthy (fields.get "valueType") then
        includesJ ProtocolSpecRegularDataTypes (fields.get "keyType") &&
          checkDataItem (fields.get "valueType")
      else if fields.get "type" == JVal.jstr "enum" then
        (match fields.get "name" with | .jstr _ => true | _ => false) &&
          (match fields.get "values" with | .jarr elems => allStringsJ elems | _ => false)
      else false
    else true
  | .jarr _ => false
  | _ => false
termination_by item => sizeOf item
decreasing_by
  all_goals simp_wf
  · have := JFields.get_sizeOf_le fields "data"
    omega
  · have := JFields.get_sizeOf_le fields "valueType"
    omega
end

/-- One packet's checks in `isValidProtocolSpec` (src/Types.ts lines
48–50): numeric `id`, known `direction`, valid `data` tree. -/
def checkPacket (p : JVal) : Bool :=
  (match p.get "id" with | .jnum _ => true | _ => false) &&
  (match p.get "direction" with
   | .jstr s => decide (s ∈ ["incoming", "outgoing", "both"])
   | _ => false) &&
  isValidProtocolSpecData (p.get "data")

/-- The `for key in spec` loop of `isValidProtocolSpec` over an object. -/
def checkPackets : JFields → Bool
  | .nil => true
  | .cons _ p rest => checkPacket p && checkPackets rest

/-- The same loop over an array root (for-in visits its index keys). -/
def checkPacketElems : JList → Bool
  | .nil => true
  | .cons p rest => checkPacket p && checkPacketElems rest

/-- `isValidProtocolSpec` (src/Types.ts lines 42–54). -/
def isValidProtocolSpec : JVal → Bool
  | .jobj packets => checkPackets packets
  | .jarr elems => checkPacketElems elems
  | _ => false

/-- The source's map branch validates `{placeholder: valueType}`; that is
exactly one loop iteration over `valueType`, as the model writes it. -/
lemma placeholder_wrap_eq (vt : JVal) :
    isValidProtocolSpecData (.jobj (.cons "placeholder" vt .nil)) = checkDataItem vt := by
  simp [isValidProtocolSpecData, checkDataFields]

/-- An enum descriptor that reaches the validator's enum branch and fails
it: `type` is `'enum'`, no truthy `data`, no truthy `keyType`/`valueType`
pair, and the `name`-is-a-string / `values`-is-an-all-string-array check
fails (a missing `name`, a missing or non-array `values`, or a non-string
element). -/
def badEnumFields (fields : JFields) : Bool :=
  (fields.get "type" == JVal.jstr "enum") &&
  !(jsTruthy (fields.get "data")) &&
  !(jsTruthy (fields.get "keyType") && jsTruthy (fields.get "valueType")) &&
  !((match fields.get "name" with | .jstr _ => true | _ => false) &&
    (match fields.get "values" with | .jarr elems => allStringsJ elems | _ => false))

mutual
/-- A rejectable enum descriptor occurs somewhere the validator visits in
this field tree. -/
def dataContainsBadEnum : JVal → Bool
  | .jobj fields => fieldsContainBadEnum fields
  | .jarr elems => elemsContainBadEnum elems
  | _ => false
termination_by data => sizeOf data

def fieldsContainBadEnum : JFields → Bool
  | .nil => false
  | .cons _ item rest => itemContainsBadEnum item || fieldsContainBadEnum rest
termination_by fields => sizeOf fields

def elemsContainBadEnum : JList → Bool
  | .nil => false
  | .cons item rest => itemContainsBadEnum item || elemsContainBadEnum rest
termination_by elems => sizeOf elems

/-- The descriptor itself is a rejectable enum, or one occurs in a
sub-tree the validator recurses into (a truthy non-scalar-array `data`,
or a map's `valueType`). -/
def itemContainsBadEnum : JVal → Bool
  | .jobj fields =>
    badEnumFields fields ||
    (if includesJ ProtocolSpecSpecialDataTypes (fields.get "type") then
      (if jsTruthy (fields.get "data") &&
          !(fields.get "type" == JVal.jstr "array" &&
            includesJ ProtocolSpecRegularDataTypes (fields.get "data")) then
        dataContainsBadEnum (fields.get "data")
      else false) ||
      (if !(jsTruthy (fields.get "data")) && jsTruthy (fields.get "keyType") &&
          jsTruthy (fields.get "valueType") then
        itemContainsBadEnum (fields.get "valueType")
      else false)
    else false)
  | _ => false
termination_by item => sizeOf item
decreasing_by
  all_goals simp_wf
  · have := JFields.get_sizeOf_le fields "data"
    omega
  · have := JFields.get_sizeOf_le fields "valueType"
    omega
end

/-- A rejectable enum descriptor occurs in the `data` tree of one of
these packets. -/
def packetsContainBadEnum : JFields → Bool
  | .nil => false
  | .cons _ p rest => dataContainsBadEnum (p.get "data") || packetsContainBadEnum rest

/-- As `packetsContainBadEnum`, over an array root. -/
def packetElemsContainBadEnum : JList → Bool
  | .nil => false
  | .cons p rest => dataContainsBadEnum (p.get "data") || packetElemsContainBadEnum rest

/-- A rejectable enum descriptor occurs in some packet's `data` tree. -/
def specContainsBadEnum : JVal → Bool
  | .jobj packets => packetsContainBadEnum packets
  | .jarr elems => packetElemsContainBadEnum elems
  | _ => false

lemma includesJ_all_of_special (v : JVal) (h : includesJ ProtocolSpecSpecialDataTypes v = true) :
    includesJ ProtocolSpecAllDataTypes v = true := by
  match v with
  | .jstr s =>
    simp only [includesJ, decide_eq_true_eq] at h ⊢
    exact List.mem_append_right _ h
  | .jnum n => simp [includesJ] at h
  | .jbool b => simp [includesJ] at h
  | .jnull => simp [includesJ] at h
  | .jundefined => simp [includesJ] at h
  | .jarr elems => simp [includesJ] at h
  | .jobj fields => simp [includesJ] at h

mutual
theorem invalid_of_dataContains (data : JVal) (h : dataContainsBadEnum data = true) :
    isValidProtocolSpecData data = false := by
  match data with
  | .jobj fields =>
    rw [isValidProtocolSpecData]
    exact invalid_of_fieldsContain fields (by rwa [dataContainsBadEnum] at h)
  | .jarr elems =>
    rw [isValidProtocolSpecData]
    exact invalid_of_elemsContain elems (by rwa [dataContainsBadEnum] at h)
  | .jstr s => exact absurd h (by simp [dataContainsBadEnum])
  | .jnum n => exact absurd h (by simp [dataContainsBadEnum])
  | .jbool b => exact absurd h (by simp [dataContainsBadEnum])
  | .jnull => exact absurd h (by simp [dataContainsBadEnum])
  | .jundefined => exact absurd h (by simp [dataContainsBadEnum])
termination_by sizeOf data

theorem invalid_of_fieldsContain (fields : JFields) (h : fieldsContainBadEnum fields = true) :
    checkDataFields fields = false := by
  match fields with
  | .nil => exact absurd h (by simp [fieldsContainBadEnum])
  | .cons key item rest =>
    rw [fieldsContainBadEnum, Bool.or_eq_true] at h
    rw [checkDataFields]
    rcases h with h | h
    · rw [invalid_of_itemContains item h, Bool.false_and]
    · rw [invalid_of_fieldsContain rest h, Bool.and_false]
termination_by sizeOf fields

theorem invalid_of_elemsContain (elems : JList) (h : elemsContainBadEnum elems = true) :
    checkDataElems elems = false := by
  match elems with
  | .nil => exact absurd h (by simp [elemsContainBadEnum])
  | .cons item rest =>
    rw [elemsContainBadEnum, Bool.or_eq_true] at h
    rw [checkDataElems]
    rcases h with h | h
    · rw [invalid_of_itemContains item h, Bool.false_and]
    · rw [invalid_of_elemsContain rest h, Bool.and_false]
termination_by sizeOf elems

theorem invalid_of_itemContains (item : JVal) (h : itemContainsBadEnum item = true) :
    checkDataItem item = false := by
  match item with
  | .jstr s => exact absurd h (by simp [itemContainsBadEnum])
  | .jnum n => exact absurd h (by simp [itemContainsBadEnum])
  | .jbool b => exact absurd h (by simp [itemContainsBadEnum])
  | .jnull => exact absurd h (by simp [itemContainsBadEnum])
  | .jundefined => exact absurd h (by simp [itemContainsBadEnum])
  | .jarr elems => exact absurd h (by simp [itemContainsBadEnum])
  | .jobj fields =>
    rw [itemContainsBadEnum, Bool.or_eq_true] at h
    rcases h with hbad | hrec
    · -- the descriptor itself fails the enum branch
      rw [badEnumFields] at hbad
      simp only [Bool.and_eq_true, beq_iff_eq, Bool.not_eq_true'] at hbad
      obtain ⟨⟨⟨hty, hdata⟩, hkv⟩, hnv⟩ := hbad
      rw [checkDataItem, hty]
      simp only [includesJ, ProtocolSpecAllDataTypes, ProtocolSpecRegularDataTypes,
        ProtocolSpecSpecialDataTypes, hdata, hkv]
      simp [hnv]
    · by_cases hsp : includesJ ProtocolSpecSpecialDataTypes (fields.get "type") = true
      · rw [if_pos hsp, Bool.or_eq_true] at hrec
        rw [checkDataItem, if_neg (by rw [includesJ_all_of_special _ hsp]; simp),
          if_pos hsp]
        rcases hrec with hrec | hrec
        · by_cases hd : (jsTruthy (fields.get "data") &&
              !(fields.get "type" == JVal.jstr "array" &&
                includesJ ProtocolSpecRegularDataTypes (fields.get "data"))) = true
          · rw [if_pos hd] at hrec
            rw [Bool.and_eq_true] at hd
            rw [if_pos hd.1, if_pos hd.2]
            exact invalid_of_dataContains _ hrec
          · rw [if_neg hd] at hrec
            exact absurd hrec Bool.false_ne_true
        · by_cases hd : (!(jsTruthy (fields.get "data")) && jsTruthy (fields.get "keyType") &&
              jsTruthy (fields.get "valueType")) = true
          · rw [if_pos hd] at hrec
            simp only [Bool.and_eq_true, Bool.not_eq_true'] at hd
            rw [if_neg (by rw [hd.1.1]; exact Bool.false_ne_true),
              if_pos (by rw [hd.1.2, hd.2]; rfl)]
            rw [invalid_of_itemContains _ hrec, Bool.and_false]
          · rw [if_neg hd] at hrec
            exact absurd hrec Bool.false_ne_true
      · rw [if_neg hsp] at hrec
        exact absurd hrec Bool.false_ne_true
termination_by sizeOf item
decreasing_by
  all_goals simp_wf
  · have := JFields.get_sizeOf_le fields "data"
    omega
  · have := JFields.get_sizeOf_le fields "valueType"
    omega
end

lemma invalid_of_packetsContain (packets : JFields)
    (h : packetsContainBadEnum packets = true) : checkPackets packets = false := by
  match packets with
  | .nil => exact absurd h (by simp [packetsContainBadEnum])
  | .cons key p rest =>
    rw [packetsContainBadEnum, Bool.or_eq_true] at h
    rw [checkPackets]
    rcases h with h | h
    · rw [checkPacket, invalid_of_dataContains _ h, Bool.and_false, Bool.false_and]
    · rw [invalid_of_packetsContain rest h, Bool.and_false]

lemma invalid_of_packetElemsContain (elems : JList)
    (h : packetElemsContainBadEnum elems = true) : checkPacketElems elems = false := by
  match elems with
  | .nil => exact absurd h (by simp [packetElemsContainBadEnum])
  | .cons p rest =>
    rw [packetElemsContainBadEnum, Bool.or_eq_true] at h
    rw [checkPacketElems]
    rcases h with h | h
    · rw [checkPacket, invalid_of_dataContains _ h, Bool.and_false, Bool.false_and]
    · rw [invalid_of_packetElemsContain rest h, Bool.and_false]

/-- Claim C8 (amended): a raw schema containing, anywhere the validator
visits, an enum descriptor (one with no truthy `data` entry and no truthy
`keyType`/`valueType` pair) that lacks a string `name`, lacks an array
`values`, or has a non-string element in `values`, is rejected as a
whole: `isValidProtocolSpec` returns `false`, with no partial acceptance
of other packets or fields.  (The claim's fourth shape — an *empty*
`values` array — is in fact accepted; see the counterexample.) -/
theorem schema_with_malformed_enum_rejected (spec : JVal)
    (h : specContainsBadEnum spec = true) : isValidProtocolSpec spec = false := by
  match spec with
  | .jobj packets =>
    rw [isValidProtocolSpec]
    exact invalid_of_packetsContain packets (by rwa [specContainsBadEnum] at h)
  | .jarr elems =>
    rw [isValidProtocolSpec]
    exact invalid_of_packetElemsContain elems (by rwa [specContainsBadEnum] at h)
  | .jstr s => exact absurd h (by simp [specContainsBadEnum])
  | .jnum n => exact absurd h (by simp [specContainsBadEnum])
  | .jbool b => exact absurd h (by simp [specContainsBadEnum])
  | .jnull => exact absurd h (by simp [specContainsBadEnum])
  | .jundefined => exact absurd h (by simp [specContainsBadEnum])

/-- A schema whose single packet has an enum field with a string `name`
and an *empty* `values` array. -/
def emptyValuesEnumSchema : JVal :=
  .jobj (.cons "P" (.jobj (.cons "id" (.jnum 0) (.cons "direction" (.jstr "both")
    (.cons "data" (.jobj (.cons "f" (.jobj (.cons "type" (.jstr "enum")
      (.cons "name" (.jstr "E") (.cons "values" (.jarr .nil) .nil)))) .nil)) .nil)))) .nil)

/-- Claim C8 counterexample: the claim says a schema containing an enum
descriptor with an empty `values` sequence is rejected, but the validator
accepts `emptyValuesEnumSchema` — `Array.isArray([])` holds and
`[].map(…).includes(false)` is `false`, so no check fires. -/
theorem empty_enum_values_accepted :
    isValidProtocolSpec emptyValuesEnumSchema = true := by
  simp [isValidProtocolSpec, emptyValuesEnumSchema, checkPackets, checkPacket, JVal.get,
    JFields.get, isValidProtocolSpecData, checkDataFields, checkDataItem, includesJ,
    ProtocolSpecAllDataTypes, ProtocolSpecRegularDataTypes, ProtocolSpecSpecialDataTypes,
    jsTruthy, allStringsJ]

/-- A schema whose single packet has an enum field lacking a `name`. -/
def noNameEnumSchema : JVal :=
  .jobj (.cons "P" (.jobj (.cons "id" (.jnum 0) (.cons "direction" (.jstr "both")
    (.cons "data" (.jobj (.cons "f" (.jobj (.cons "type" (.jstr "enum")
      (.cons "values" (.jarr (.cons (.jstr "OK") .nil)) .nil))) .nil)) .nil)))) .nil)

/-- Witness for C8: the schema with a nameless enum is rejected whole. -/
theorem schema_with_malformed_enum_rejected_witness :
    isValidProtocolSpec noNameEnumSchema = false :=
  schema_with_malformed_enum_rejected noNameEnumSchema (by
    simp [noNameEnumSchema, specContainsBadEnum, packetsContainBadEnum, dataContainsBadEnum,
      fieldsContainBadEnum, itemContainsBadEnum, badEnumFields, JVal.get, JFields.get,
      jsTruthy, allStringsJ])

/-! ## Write-program synthesis (`genWriteCode`, src/index.ts lines
594–657)

The generator emits TypeScript source lines; the model produces the same
line list, with the synthetic-name counter threaded explicitly. -/

/-- `genWriteCode`'s `keys` parameter: `string | string[]`. -/
inductive KeysArg where
  | one (s : String)
  | many (l : List String)

/-- JS `keys.length` (string length or array length). -/
def KeysArg.len : KeysArg → Nat
  | .one s => s.length
  | .many l => l.length

/-- `[...(typeof keys === 'string' ? [keys] : keys)]`. -/
def KeysArg.toList : KeysArg → List String
  | .one s => [s]
  | .many l => l

/-- Modelled from the spec: the name `getNextChar`/`resetNextChar`
(imported from './utils' but absent from src/) derive from their single
shared counter (§4.3: "name generation is otherwise a single shared
counter"); any injective counter-to-name scheme serves, and every name is
nonempty. -/
def nextCharName (c : Nat) : String :=
  String.mk (List.replicate (c / 26 + 1) (Char.ofNat (97 + c % 26)))

/-- Modelled from the spec: `getNextChar` returns a fresh binding name
and advances the shared counter. -/
def getNextChar (c : Nat) : String × Nat := (nextCharName c, c + 1)

/-- `capitalize` (src/utils.ts lines 15–17):
`string.substring(0, 1).toUpperCase() + string.substring(1)`. -/
def capitalize (s : String) : String := (s.take 1).toUpper ++ s.drop 1

/-- The schema type-name string of a regular type. -/
def regTypeName : RegType → String
  | .varInt => "varInt"
  | .string => "string"
  | .int => "int"
  | .long => "long"
  | .stringArray => "stringArray"
  | .intArray => "intArray"
  | .bytes => "bytes"
  | .boolean => "boolean"
  | .float => "float"
  | .short => "short"
  | .double => "double"

/-- The `keyPath` expression of `genWriteCode` (src/index.ts line 607):
for a string `keys` it is `keys + '.' + key`; for an array it joins each
element bare when bracketed, empty, or at index 0 (`keys.indexOf(i) ===
0`), dot-prefixed otherwise, then appends `.key` unless `key` is
empty. -/
def keyPathOf (keys : KeysArg) (key : String) : String :=
  match keys with
  | .one s => s ++ "." ++ key
  | .many l =>
    String.join (l.map (fun i =>
      if (i.startsWith "[" && i.endsWith "]") || i == "" || l.indexOf i == 0 then i
      else "." ++ i)) ++ (if key == "" then "" else "." ++ key)

/-- `Regular.includes(valueType) || Regular.includes(valueType.type)`:
the map value is a regular descriptor. -/
def isRegularItem : Item → Bool
  | .regular _ => true
  | _ => false

mutual
/-- `genWriteCode` (src/index.ts lines 594–657): on the top-level call
(`!keys.length`) it calls `resetNextChar()` and sets `keys = ['data']`,
then iterates the field tree.  Returns the emitted lines and the counter
state it leaves behind. -/
def genWriteData : SpecData → KeysArg → Nat → List String × Nat
  | data, keys0, c0 =>
    let isMain := keys0.len == 0
    let keys := if isMain then KeysArg.many ["data"] else keys0
    let c := if isMain then 0 else c0
    genWriteLoop data isMain keys c
termination_by data _ _ => (sizeOf data, 1)

/-- The `for (const key in data)` loop; when `isMain` each iteration
first pushes an empty line. -/
def genWriteLoop : SpecData → Bool → KeysArg → Nat → List String × Nat
  | .nil, _, _, c => ([], c)
  | .cons key item rest, isMain, keys, c =>
    let head : List String := if isMain then [""] else []
    let (lines1, c1) := genWriteField key item isMain keys c
    let (lines2, c2) := genWriteLoop rest isMain keys c1
    (head ++ lines1 ++ lines2, c2)
termination_by data _ _ _ => (sizeOf data, 0)

/-- One loop iteration's emitted lines for the field `key : item`.
The map case's `genWriteCode({'': valueType}, …)` is written as the equal
single iteration over `valueType` — see `singleton_wrap_eq`. -/
def genWriteField : String → Item → Bool → KeysArg → Nat → List String × Nat
  | key, item, isMain, keys, c =>
    let keyPath := keyPathOf keys key
    match item with
    | .regular t =>
      (["this.buf.write" ++ capitalize (regTypeName t) ++ "(" ++ keyPath ++ ");"], c)
    | .array data =>
      let (iteratorName, c1) := getNextChar c
      let (inner, c2) := genWriteData data (KeysArg.one iteratorName) c1
      (["this.buf.writeVarInt(" ++ keyPath ++ ".length);",
        "for (const " ++ iteratorName ++ " of " ++ keyPath ++ ") \x7b"] ++
        inner.map (fun i => "  " ++ i) ++ ["\x7d"], c2)
    | .object data =>
      let (inner, c1) := genWriteData data (KeysArg.many (keys.toList ++ [key])) c
      (inner.map (fun i => if isMain then i else "  " ++ i), c1)
    | .map keyType valueType =>
      let (inner, c1) :=
        genWriteField "" valueType false (KeysArg.many (keys.toList ++ [key, "[key]"])) c
      (["this.buf.writeVarInt(Object.keys(" ++ keyPath ++ ").length);",
        "for (const key in " ++ keyPath ++ ") \x7b",
        "  this.buf.write" ++ capitalize (regTypeName keyType) ++ "(" ++
          (if typeMappings keyType == "number" then "Number(key)" else "key") ++ ");",
        ""] ++
        inner.map (fun i => if isRegularItem valueType then "  " ++ i else i) ++
        ["\x7d"], c1)
    | .enum name _ =>
      (["this.buf.writeShort(" ++ name ++ "Enum[" ++ keyPath ++ "]);"], c)
termination_by _ item _ _ _ => (sizeOf item, 2)
end

/-- The generator's `for (const name in spec)` loop (src/index.ts lines
717-757), restricted to each packet's write-method lines
(`genWriteCode(item.data)`); the shared synthetic-name counter threads
from one packet's synthesis into the next. -/
def genPacketsWriteCode : List (String × SpecData) → Nat → List (String × List String)
  | [], _ => []
  | (name, data) :: rest, c =>
    let (lines, c1) := genWriteData data (KeysArg.many []) c
    (name, lines) :: genPacketsWriteCode rest c1

/-- The source's `genWriteCode({'': valueType}, keys)` with nonempty
`keys` is exactly one loop iteration over `valueType` — the model's
`genWriteField "" valueType false keys c`. -/
lemma singleton_wrap_eq (vt : Item) (l : List String) (c : Nat) (h : l ≠ []) :
    genWriteData (SpecData.cons "" vt SpecData.nil) (KeysArg.many l) c =
      genWriteField "" vt false (KeysArg.many l) c := by
  rw [genWriteData]
  have hlen : ((KeysArg.many l).len == 0) = false := by
    simp only [KeysArg.len, beq_eq_false_iff_ne]
    exact fun hh => h (List.eq_nil_of_length_eq_zero hh)
  simp only [hlen, Bool.false_eq_true, reduceIte]
  rw [genWriteLoop]
  simp only [Bool.false_eq_true, reduceIte, List.nil_append]
  rw [genWriteLoop]
  rcases hf : genWriteField "" vt false (KeysArg.many l) c with ⟨lines1, c1⟩
  simp

/-- The top-level `genWriteCode` call resets the shared name counter
(`resetNextChar()`), so the incoming counter state is irrelevant. -/
lemma genWriteData_ignores_counter (data : SpecData) (c1 c2 : Nat) :
    genWriteData data (KeysArg.many []) c1 = genWriteData data (KeysArg.many []) c2 := by
  rw [genWriteData, genWriteData]
  rfl

/-- Claim C9: write-program synthesis is deterministic and depends only
on the packet's own field tree.  The top-level `genWriteCode` call resets
the shared name counter, so (i) the emitted lines and final counter are
independent of the counter state earlier syntheses left behind, and (ii)
in the generator's loop over a whole schema, every packet's write program
is a function of its own field tree alone: packets with identical trees
get identical programs regardless of position or predecessors. -/
theorem genWriteCode_counter_independent :
    (∀ (data : SpecData) (c1 c2 : Nat),
      genWriteData data (KeysArg.many []) c1 = genWriteData data (KeysArg.many []) c2) ∧
    (∀ (packets : List (String × SpecData)) (c : Nat),
      genPacketsWriteCode packets c =
        packets.map (fun p => (p.1, (genWriteData p.2 (KeysArg.many []) 0).1))) := by
  refine ⟨genWriteData_ignores_counter, fun packets => ?_⟩
  induction packets with
  | nil => intro c; rfl
  | cons p rest ih =>
    intro c
    rcases p with ⟨name, data⟩
    rw [genPacketsWriteCode, genWriteData_ignores_counter data c 0]
    rcases hg : genWriteData data (KeysArg.many []) 0 with ⟨lines, c1⟩
    simp only [List.map_cons]
    rw [ih c1, hg]

end AutoBuf
